import Mathlib

/-
A verification development for the natural-language-commander engine
(`NaturalLanguageCommander.ts`, `lib/Matcher.ts`, `lib/Question.ts`,
`lib/standardSlots.ts`).

Modelling conventions:
* JavaScript strings are `List Char`.
* JavaScript numbers are `ℚ` (the examples at stake are exact decimals).
* `undefined` is `Option.none`; fallible operations return `Option`.
* The compiled `RegExp` of a matcher is kept as the literal pattern string
  produced by the source pipeline, and a small parser interprets the
  fragment of regular-expression syntax that the pipeline emits
  (literal characters, `\s+`, `\s*`, `(.+)`, `(\w+)`, `^`, `$`) as a
  token list; a deterministic backtracking engine mirrors the JavaScript
  regex search (leftmost position, greedy quantifiers, `i` flag).
  Patterns outside that fragment parse to `none`.
* Case folding models the ASCII fragment of JavaScript case
  insensitivity; character classes model the ASCII fragment of `\s`
  and `\w`, and `.` excludes the line terminators.
-/

set_option autoImplicit false

namespace NLC

/-- Convert a Lean string literal to the character-list model of a
JavaScript string. -/
def cl (s : String) : List Char := s.data

/- ===== Characters and case folding ===== -/

/-- ASCII fragment of the JavaScript `\s` class (space, tab, LF, VT, FF,
CR), also used to model `String.prototype.trim`. -/
def jsIsWs (c : Char) : Bool := c.toNat = 32 || (9 ≤ c.toNat && c.toNat ≤ 13)

/-- JavaScript line terminators, which `.` does not match. -/
def jsIsLineTerm (c : Char) : Bool :=
  c.toNat = 10 || c.toNat = 13 || c.toNat = 8232 || c.toNat = 8233

/-- What the regex `.` matches: any character except a line terminator. -/
def jsIsDot (c : Char) : Bool := !(jsIsLineTerm c)

/-- The regex `\w` class: `[A-Za-z0-9_]`. -/
def jsIsWord (c : Char) : Bool :=
  (48 ≤ c.toNat && c.toNat ≤ 57) || (65 ≤ c.toNat && c.toNat ≤ 90) ||
    (97 ≤ c.toNat && c.toNat ≤ 122) || c.toNat = 95

/-- Alphanumeric characters, modelling the word splitting of `_.words`
on ASCII text. -/
def jsIsAlnum (c : Char) : Bool :=
  (48 ≤ c.toNat && c.toNat ≤ 57) || (65 ≤ c.toNat && c.toNat ≤ 90) ||
    (97 ≤ c.toNat && c.toNat ≤ 122)

/-- ASCII lower-casing, modelling `String.prototype.toLowerCase` and the
canonicalisation performed by the regex `i` flag on ASCII input
(`Char.toLower` maps `A`-`Z` to `a`-`z` and fixes everything else). -/
def jsToLower (c : Char) : Char := Char.toLower c

/-- Case-insensitive character comparison (the `i` flag). -/
def lowerEqb (c d : Char) : Bool := jsToLower c = jsToLower d

/-- Lower-case every character of a string. -/
def lowerStr (cs : List Char) : List Char := cs.map jsToLower

/- ===== The regex fragment emitted by the utterance compiler ===== -/

/-- The capture syntaxes occurring in the compiled patterns: the default
`.+` and the `\w+` of the `WORD` slot type. -/
inductive GroupClass where
  | dotPlus
  | wordPlus
deriving DecidableEq

/-- The character test of a capture group's class. -/
def GroupClass.test : GroupClass → Char → Bool
  | .dotPlus => jsIsDot
  | .wordPlus => jsIsWord

/-- Tokens of the compiled pattern. -/
inductive Tok where
  /-- A literal character, matched case-insensitively (`i` flag). -/
  | lit (c : Char)
  /-- `\s+`, produced by `replaceSpacesForRegexp`. -/
  | wsPlus
  /-- `\s*`, from the `^\s*` and `\s*$` anchors. -/
  | wsStar
  /-- A capture group `(.+)` or `(\w+)` spliced in for a slot. -/
  | group (g : GroupClass)
  /-- `^`: matches only at the start of the input. -/
  | caret
  /-- `$`: matches only at the end of the input. -/
  | dollar
deriving DecidableEq

/-- Length of the maximal prefix of `cs` whose characters satisfy `cls`. -/
def runLen (cls : Char → Bool) : List Char → Nat
  | [] => 0
  | c :: cs => if cls c then runLen cls cs + 1 else 0

/-- Try `f k`, then `f (k-1)`, ..., down to `f lo`; first success wins.
This is the backtracking order of a greedy quantifier. -/
def tryDown {α : Type} (f : Nat → Option α) (lo : Nat) : Nat → Option α
  | 0 => if lo = 0 then f 0 else none
  | k + 1 =>
    if k + 1 < lo then none
    else
      match f (k + 1) with
      | some r => some r
      | none => tryDown f lo k

/-- The deterministic backtracking matcher: match the token list against
a prefix of `cs`, returning the capture list and the unconsumed suffix.
`st` records whether the current position is the start of the whole
input (for `^`; `$` tests whether the suffix is empty).  Greedy
quantifiers try the longest run first, as in JavaScript. -/
def matchToks : List Tok → Bool → List Char → Option (List (List Char) × List Char)
  | [], _, cs => some ([], cs)
  | Tok.caret :: ts, st, cs => if st then matchToks ts st cs else none
  | Tok.dollar :: ts, st, cs => if cs.isEmpty then matchToks ts st cs else none
  | Tok.lit c :: ts, _, cs =>
    match cs with
    | [] => none
    | d :: ds => if lowerEqb c d then matchToks ts false ds else none
  | Tok.wsPlus :: ts, st, cs =>
    tryDown (fun k => matchToks ts (st && k == 0) (cs.drop k)) 1 (runLen jsIsWs cs)
  | Tok.wsStar :: ts, st, cs =>
    tryDown (fun k => matchToks ts (st && k == 0) (cs.drop k)) 0 (runLen jsIsWs cs)
  | Tok.group g :: ts, st, cs =>
    tryDown
      (fun k =>
        (matchToks ts (st && k == 0) (cs.drop k)).map
          (fun r => (cs.take k :: r.1, r.2)))
      1 (runLen g.test cs)

/-- `String.prototype.match`: try the pattern at position 0, then at
each later position, keeping the first success (leftmost match). -/
def searchGo (ts : List Tok) : Bool → List Char → Option (List (List Char) × List Char)
  | st, cs =>
    match matchToks ts st cs with
    | some r => some r
    | none =>
      match cs with
      | [] => none
      | _ :: cs' => searchGo ts false cs'

/-- The captures of the leftmost match of the pattern, if any
(the whole-match entry is discarded by `matches.shift()`). -/
def jsSearch (ts : List Tok) (cmd : List Char) : Option (List (List Char)) :=
  (searchGo ts true cmd).map (fun r => r.1)

/-- Does the original utterance match `/^{(\w+?)}$/`, i.e. is the whole
template a single bare slot placeholder? -/
def isBareSlotUtterance (u : List Char) : Bool :=
  match u with
  | c :: rest =>
    c = '{' &&
      (!(rest.takeWhile jsIsWord).isEmpty &&
        rest.drop (rest.takeWhile jsIsWord).length = ['}'])
  | [] => false

/-- Is this character a regex metacharacter that the token language does
not cover as a literal? -/
def isUnsupportedMeta (c : Char) : Bool :=
  c = '\\' || c = '(' || c = ')' || c = '[' || c = ']' || c = '{' ||
    c = '}' || c = '.' || c = '*' || c = '+' || c = '?' || c = '|'

/-- Parse the fragment of regex syntax emitted by the utterance
compiler into tokens.  Patterns using any other syntax (in particular
the bracket characters that `replaceBracesForRegexp` fails to escape)
are outside the model and parse to `none`. -/
def parseToksF : Nat → List Char → Option (List Tok)
  | 0, _ => none
  | _ + 1, [] => some []
  | fuel + 1, c :: rest =>
    if c = '\\' then
      if rest.take 2 = ['s', '+'] then
        (parseToksF fuel (rest.drop 2)).map (fun ts => Tok.wsPlus :: ts)
      else if rest.take 2 = ['s', '*'] then
        (parseToksF fuel (rest.drop 2)).map (fun ts => Tok.wsStar :: ts)
      else none
    else if c = '(' then
      if rest.take 3 = ['.', '+', ')'] then
        (parseToksF fuel (rest.drop 3)).map
          (fun ts => Tok.group GroupClass.dotPlus :: ts)
      else if rest.take 4 = ['\\', 'w', '+', ')'] then
        (parseToksF fuel (rest.drop 4)).map
          (fun ts => Tok.group GroupClass.wordPlus :: ts)
      else none
    else if c = '^' then (parseToksF fuel rest).map (fun ts => Tok.caret :: ts)
    else if c = '$' then (parseToksF fuel rest).map (fun ts => Tok.dollar :: ts)
    else if isUnsupportedMeta c then none
    else (parseToksF fuel rest).map (fun ts => Tok.lit c :: ts)

/-- Entry point: each parse step consumes at least one character, so
`length + 1` fuel always suffices. -/
def parseToks (w : List Char) : Option (List Tok) :=
  parseToksF (w.length + 1) w

/- ===== Data model (`lib/nlcInterfaces.ts`) ===== -/

/-- A JavaScript value appearing as a slot value or caller datum:
a string or a number. -/
inductive JSVal where
  | str (s : List Char)
  | num (q : ℚ)
deriving DecidableEq

/-- JavaScript truthiness of the modelled values (`""` and `0` are
falsy; a rational is zero exactly when its numerator is). -/
def jsTruthy : JSVal → Bool
  | .str s => !s.isEmpty
  | .num q => q.num ≠ 0

/-- The `matcher` union of a slot type: `string | string[] | RegExp |
SlotTypeFunction`.  A `RegExp` matcher is modelled by its `test`
predicate, a function matcher by its (possibly `undefined`-returning)
transform. -/
inductive SlotMatcherSpec where
  | strSpec (s : List Char)
  | listSpec (ss : List (List Char))
  | regexpSpec (test : List Char → Bool)
  | funcSpec (f : List Char → Option JSVal)

/-- `ISlotType`: a named slot type with its matcher and optional
`baseMatcher` regex fragment. -/
structure SlotType where
  type : String
  matcher : SlotMatcherSpec
  baseMatcher : Option (List Char) := none

/-- `IIntentSlot`: a named argument position referencing a slot type. -/
structure IntentSlot where
  name : String
  type : String
deriving DecidableEq

/-- What a callback does when invoked.  The dialog tests exercise a
success callback that calls `nlc.ask` again; other callbacks do
nothing observable to the engine state. -/
inductive CbAction where
  | noop
  | ask (userId : Option String) (question : String)
deriving DecidableEq

/-- `IIntent`: name, declared slots (in authoritative order), utterance
templates, and the callback (modelled by its engine-visible action;
its invocations and arguments are recorded in the event trace).
The source allows `slots` to be absent; an absent list is modelled
as `[]`. -/
structure Intent where
  intent : String
  slots : List IntentSlot := []
  utterances : List (List Char)
  cb : CbAction := CbAction.noop
deriving DecidableEq

/-- `ISlotFullfilment`: a slot name with the value extracted for it
(`undefined` when the declared slot never occurred in the utterance). -/
structure SlotFulfilment where
  name : String
  value : Option JSVal
deriving DecidableEq

/-- `IIntentFullfilment`: the intent name and its fulfilled slots. -/
structure IntentFulfilment where
  intent : String
  slots : List SlotFulfilment
deriving DecidableEq

/-- Association-list lookup, modelling string-keyed JavaScript object
property access. -/
def lookupKey {α : Type} : List (String × α) → String → Option α
  | [], _ => none
  | (k', v) :: rest, k => if k' = k then some v else lookupKey rest k

/-- Association-list update, modelling JavaScript property assignment
(replaces an existing key, otherwise appends). -/
def setKey {α : Type} : List (String × α) → String → α → List (String × α)
  | [], k, v => [(k, v)]
  | (k', v') :: rest, k, v =>
    if k' = k then (k, v) :: rest else (k', v') :: setKey rest k v

/-- The registered slot types (`slotTypes` object). -/
def SlotTable : Type := List (String × SlotType)

/- ===== The utterance compiler (`lib/Matcher.ts` constructor) ===== -/

/-- `_.words` over the template, modelled as the maximal ASCII
alphanumeric runs (`acc` carries the reversed run being read). -/
def wordsOfAux (acc : List Char) : List Char → List (List Char)
  | [] => if acc.isEmpty then [] else [acc.reverse]
  | c :: cs =>
    if jsIsAlnum c then wordsOfAux (c :: acc) cs
    else if acc.isEmpty then wordsOfAux [] cs
    else acc.reverse :: wordsOfAux [] cs

/-- `_.words`: the maximal alphanumeric runs of the template. -/
def wordsOf (cs : List Char) : List (List Char) := wordsOfAux [] cs

/-- `_.uniq`: keep the first occurrence of each word (`seen` carries
the words already emitted). -/
def uniqWordsAux (seen : List (List Char)) : List (List Char) → List (List Char)
  | [] => []
  | w :: ws =>
    if seen.contains w then uniqWordsAux seen ws
    else w :: uniqWordsAux (w :: seen) ws

/-- `_.uniq`. -/
def uniqWords (ws : List (List Char)) : List (List Char) := uniqWordsAux [] ws

/-- Does `w` occur, case-insensitively, at the head of `cs`? -/
def ciHeadMatch : List Char → List Char → Bool
  | [], _ => true
  | _ :: _, [] => false
  | w :: ws, c :: cs => lowerEqb w c && ciHeadMatch ws cs

/-- `utterance.replace(new RegExp(word, 'ig'), replacement)`: replace
every case-insensitive occurrence of the (alphanumeric, nonempty) word.
The fuel starts at the text length and dominates the number of steps,
since every step consumes at least one character. -/
def replaceAllCIAux (w r : List Char) : Nat → List Char → List Char
  | _, [] => []
  | 0, cs => cs
  | fuel + 1, c :: cs =>
    if w.isEmpty then c :: cs
    else if ciHeadMatch w (c :: cs) then
      r ++ replaceAllCIAux w r fuel ((c :: cs).drop w.length)
    else c :: replaceAllCIAux w r fuel cs

/-- Global case-insensitive replacement of a word. -/
def replaceAllCI (w r cs : List Char) : List Char :=
  replaceAllCIAux w r cs.length cs

/-- `replaceCommonMispellings`: for each distinct word of the template
that the misspelling capability (`commonMistakes`, an external
corpus-derived table consumed at compile time) maps to a replacement,
substitute every case-insensitive occurrence.  The capability itself is
a parameter `mist`. -/
def replaceCommonMispellings (mist : List Char → Option (List Char))
    (u : List Char) : List Char :=
  (uniqWords (wordsOf u)).foldl
    (fun acc w =>
      match mist w with
      | some r => replaceAllCI w r acc
      | none => acc)
    u

/-- `replaceSpacesForRegexp`: replace each maximal whitespace run with
the pattern fragment `\s+` (`inRun` tells whether the previous
character was whitespace, i.e. whether the current run already emitted
its `\s+`). -/
def replaceSpacesAux (inRun : Bool) : List Char → List Char
  | [] => []
  | c :: cs =>
    if jsIsWs c then
      if inRun then replaceSpacesAux true cs
      else '\\' :: 's' :: '+' :: replaceSpacesAux true cs
    else c :: replaceSpacesAux false cs

/-- `replaceSpacesForRegexp`. -/
def replaceSpacesForRegexp (cs : List Char) : List Char :=
  replaceSpacesAux false cs

/-- `replaceBracesForRegexp`: the source chains
`utterance.replace('[', '\\[').replace(']', '\\]').replace('(',
'\\(').replace(')', '\\)')` but discards the chain's result (strings are
immutable in JavaScript and the result is never assigned), and returns
the original `utterance` unchanged. -/
def replaceBracesForRegexp (u : List Char) : List Char := u

/-- Find the first match of the slot placeholder regexp `/{(\w+?)}/`:
returns the match index and the enclosed name (the full match length is
the name length plus the two braces).  The lazy `\w+?` together with the
closing `}` selects, at the first viable position, the maximal word-char
run directly followed by `}`. -/
def findSlotAt : List Char → Option (Nat × List Char)
  | [] => none
  | c :: cs =>
    if c = '{' then
      let name := cs.takeWhile jsIsWord
      if name.isEmpty then (findSlotAt cs).map (fun r => (r.1 + 1, r.2))
      else if (cs.drop name.length).headD ' ' = '}' then some (0, name)
      else (findSlotAt cs).map (fun r => (r.1 + 1, r.2))
    else (findSlotAt cs).map (fun r => (r.1 + 1, r.2))

/-- One pass of the constructor's while loop body, followed by the next
search: replace each placeholder that names a declared slot by a
capture group over the slot type's `baseMatcher` (default `.+`), and
record the slot in utterance order.  An undeclared slot name or an
unknown slot type makes the constructor throw; both are modelled as
`none`.  `fuel` bounds the iterations (the source loop re-scans from
the start after every splice and terminates because each splice removes
a `{`; the initial fuel below is sufficient whenever no `baseMatcher`
itself introduces a placeholder). -/
def slotLoop (slotTypes : SlotTable) (slots : List IntentSlot) :
    Nat → List Char → List IntentSlot → Option (List Char × List IntentSlot)
  | fuel, u, acc =>
    match findSlotAt u with
    | none => some (u, acc)
    | some (i, name) =>
      match fuel with
      | 0 => none
      | fuel + 1 =>
        let names := slots.map (fun s => s.name)
        if names.contains (String.mk name) then
          match slots.find? (fun s => s.name = String.mk name) with
          | none => none
          | some slot =>
            match lookupKey slotTypes slot.type with
            | none => none
            | some st =>
              let bm := st.baseMatcher.getD (cl ".+")
              let u' := u.take i ++ '(' :: bm ++ ')' :: u.drop (i + name.length + 2)
              slotLoop slotTypes slots fuel u' (acc ++ [slot])
        else none

/-- A compiled matcher (`Matcher`): the original utterance (used by
`removeUtterance` and the bare-slot scan rule), the owning intent, the
compiled pattern string, and the slots in the order their placeholders
were consumed. -/
structure Matcher where
  originalUtterance : List Char
  intent : Intent
  pattern : List Char
  slotMapping : List IntentSlot
deriving DecidableEq

/-- The `Matcher` constructor: resolve the slot placeholders, apply
misspelling substitution, collapse whitespace, apply the (no-op) brace
escaping, and anchor with `^\s*` and `\s*$`; the pattern is compiled
with the `i` flag (reflected in the engine's case-insensitive literal
comparison).  `none` models the constructor throwing. -/
def mkMatcher (mist : List Char → Option (List Char)) (slotTypes : SlotTable)
    (intent : Intent) (utterance : List Char) : Option Matcher :=
  let step1 :=
    if intent.slots.isEmpty then some (utterance, [])
    else slotLoop slotTypes intent.slots (utterance.length + 1) utterance []
  step1.map (fun r =>
    let u2 := replaceCommonMispellings mist r.1
    let u3 := replaceSpacesForRegexp u2
    let u4 := replaceBracesForRegexp u3
    { originalUtterance := utterance
      intent := intent
      pattern := cl "^\\s*" ++ u4 ++ cl "\\s*$"
      slotMapping := r.2 })

/- ===== Slot evaluation (`lib/Matcher.ts` check methods) ===== -/

/-- `checkSlotMatch`: dispatch on the slot type's matcher kind.
String and list matchers compare the lower-cased fragment against the
stored (already lower-cased) data and return the original fragment;
a regexp matcher returns the fragment when its test succeeds; a
function matcher returns whatever the function returns.  An unknown
slot type name makes the source throw `NLC: Slot Type ... not found!`;
no claim exercises that path and it is modelled as `none`. -/
def checkSlotMatch (slotTypes : SlotTable) (slotText : List Char)
    (slotTypeName : String) : Option JSVal :=
  match lookupKey slotTypes slotTypeName with
  | none => none
  | some st =>
    match st.matcher with
    | .regexpSpec test => if test slotText then some (.str slotText) else none
    | .strSpec s => if lowerStr slotText = s then some (.str slotText) else none
    | .listSpec ss =>
      if ss.contains (lowerStr slotText) then some (.str slotText) else none
    | .funcSpec f => f slotText

/-- The loop of `check` over `slotMapping`: evaluate each captured
fragment against its slot's type, failing when a result is `undefined`
or the empty string (`slotData === undefined || slotData === ""`, so
the value `0` is a valid match), and bind successful values to the slot
names (later bindings overwrite earlier ones, as JavaScript property
assignment does).  A missing capture behaves like an `undefined`
fragment and fails. -/
def evalSlots (slotTypes : SlotTable) :
    List IntentSlot → List (List Char) → List (String × JSVal) →
      Option (List (String × JSVal))
  | [], _, acc => some acc
  | _ :: _, [], _ => none
  | sl :: sls, text :: rest, acc =>
    match checkSlotMatch slotTypes text sl.type with
    | none => none
    | some v =>
      if v = JSVal.str [] then none
      else evalSlots slotTypes sls rest (setKey acc sl.name v)

/-- `getOrderedSlots`: read the bound values back in the order the
slots were declared on the intent. -/
def getOrderedSlots (intent : Intent) (bound : List (String × JSVal)) :
    List SlotFulfilment :=
  intent.slots.map (fun sl => { name := sl.name, value := lookupKey bound sl.name })

/-- `Matcher.check`: run the compiled pattern against the command; on a
regex match with no slots succeed with `[]`; otherwise evaluate every
captured fragment and, when none failed, return the fulfilments in
declared slot order.  `slotTypes` is the table of the owning engine
instance (the source holds a live reference to it). -/
def Matcher.check (m : Matcher) (slotTypes : SlotTable) (cmd : List Char) :
    Option (List SlotFulfilment) :=
  match parseToks m.pattern with
  | none => none
  | some ts =>
    match jsSearch ts cmd with
    | none => none
    | some caps =>
      if m.slotMapping.isEmpty then some []
      else
        match evalSlots slotTypes m.slotMapping caps [] with
        | none => none
        | some bound => some (getOrderedSlots m.intent bound)

/- ===== Questions (`lib/Question.ts`) ===== -/

/-- A registered question: its name, the matchers of its private
sub-engine (the cancel intent's, when a cancel callback exists,
followed by the question intent's), and the engine-visible actions of
its fail and question callbacks (the success and cancel callbacks are
the callbacks of the sub-engine's intents).  The sub-engine shares the
parent's slot-type table by reference, so checks read the parent's
current table. -/
structure Question where
  name : String
  subMatchers : List Matcher
  failCb : CbAction := CbAction.noop
  questionCb : CbAction := CbAction.noop
deriving DecidableEq

/-- `IQuestion`: the data passed to `registerQuestion`. -/
structure QuestionData where
  name : String
  slotType : String
  utterances : Option (List (List Char)) := none
  questionCb : CbAction := CbAction.noop
  successCb : CbAction := CbAction.noop
  failCb : CbAction := CbAction.noop
  cancelCb : Option CbAction := none

/- ===== Engine state (`NaturalLanguageCommander.ts`) ===== -/

/-- Modelled from the spec: the reserved anonymous user key used when no
user id is supplied (`lib/constants.ts` is not in the sources; the spec
describes "a reserved anonymous sentinel"). -/
def ANONYMOUS : String := "anonymous"

/-- `userId || ANONYMOUS`: an absent or empty (falsy) user id maps to
the anonymous key. -/
def userKey : Option String → String
  | none => ANONYMOUS
  | some u => if u = "" then ANONYMOUS else u

/-- The engine state: slot types, registered intent/question names,
intents, questions, active questions per user key (an entry may be
explicitly reset to `none`, as `finishQuestion` assigns `undefined`),
compiled matchers, and the not-found callback's action. -/
structure NLCState where
  slotTypes : SlotTable := []
  intentNames : List String := []
  intents : List Intent := []
  questions : List (String × Question) := []
  activeQuestions : List (String × Option Question) := []
  matchers : List Matcher := []
  notFoundCb : CbAction := CbAction.noop

/-- The fresh state built by the constructor. -/
def initialState : NLCState := {}

/-- `getActiveQuestion`. -/
def getActiveQuestion (s : NLCState) (userId : Option String) : Option Question :=
  (lookupKey s.activeQuestions (userKey userId)).bind id

/-- `setActiveQuestion`. -/
def setActiveQuestion (s : NLCState) (userId : Option String)
    (q : Option Question) : NLCState :=
  { s with activeQuestions := setKey s.activeQuestions (userKey userId) q }

/-- `finishQuestion`: deactivate the user's question. -/
def finishQuestion (s : NLCState) (userId : Option String) : NLCState :=
  setActiveQuestion s userId none

/-- `doesIntentExist`. -/
def doesIntentExist (s : NLCState) (intentName : String) : Bool :=
  s.intentNames.contains intentName

/-- Observable events of a `handleCommand`/`ask` run, in execution
order. -/
inductive Event where
  /-- An intent callback (also a question's success or cancel callback,
  which are sub-intent callbacks) was invoked with these arguments. -/
  | invoked (intent : String) (args : List (Option JSVal))
  /-- The user's active question was cleared. -/
  | clearedQuestion (key : String)
  /-- A question's fail callback was invoked. -/
  | invokedFail (question : String)
  /-- A question's question callback was invoked (by `ask`). -/
  | invokedQuestionCb (question : String)
  /-- A callback's `ask` made this question active for this key. -/
  | askSet (key : String) (question : String)
  /-- The not-found callback was invoked. -/
  | notFoundCalled
deriving DecidableEq

/-- Run a callback's engine-visible action.  `ask` from inside a
callback synchronously activates the named question when it is
registered (its deferred question-callback invocation happens on a
later tick and is outside this run's trace). -/
def runCbAction (s : NLCState) : CbAction → NLCState × List Event
  | .noop => (s, [])
  | .ask uid qname =>
    match lookupKey s.questions qname with
    | some q => (setActiveQuestion s uid (some q), [.askSet (userKey uid) qname])
    | none => (s, [])

/-- `cleanCommand`: normalise smart quotes and trim. -/
def cleanCommand (cmd : List Char) : List Char :=
  let dequoted := cmd.map (fun c =>
    if c = '‘' ∨ c = '’' then '\''
    else if c = '“' ∨ c = '”' then '"'
    else c)
  ((dequoted.dropWhile jsIsWs).reverse.dropWhile jsIsWs).reverse

/-- The matcher loop of `handleNormalCommand`: try each compiled
matcher in order; on a match, invoke the intent's callback with the
slot values in declared order (prepending the datum when it is truthy)
and record the fulfilment; stop scanning unless the matched utterance
is a single bare slot placeholder, in which case a later successful
matcher replaces the recorded fulfilment. -/
def scanMatchers (slotTypes : SlotTable) (data : Option JSVal) (cmd : List Char) :
    List Matcher → NLCState → NLCState × Option IntentFulfilment × List Event
  | [], s => (s, none, [])
  | m :: rest, s =>
    match m.check slotTypes cmd with
    | none => scanMatchers slotTypes data cmd rest s
    | some fl =>
      let callSlots : List (Option JSVal) := fl.map (fun f => f.value)
      let args :=
        match data with
        | some d => if jsTruthy d then some d :: callSlots else callSlots
        | none => callSlots
      let s1r := runCbAction s m.intent.cb
      let evs : List Event := .invoked m.intent.intent args :: s1r.2
      let thisMatch : IntentFulfilment := ⟨m.intent.intent, fl⟩
      if isBareSlotUtterance m.originalUtterance then
        let r := scanMatchers slotTypes data cmd rest s1r.1
        (r.1, some (r.2.1.getD thisMatch), evs ++ r.2.2)
      else (s1r.1, some thisMatch, evs)

/-- The pure "found match" of the scan (used to state the scan rule). -/
def scanFound (slotTypes : SlotTable) (cmd : List Char) :
    List Matcher → Option IntentFulfilment
  | [] => none
  | m :: rest =>
    match m.check slotTypes cmd with
    | none => scanFound slotTypes cmd rest
    | some fl =>
      if isBareSlotUtterance m.originalUtterance then
        some ((scanFound slotTypes cmd rest).getD ⟨m.intent.intent, fl⟩)
      else some ⟨m.intent.intent, fl⟩

/-- The overall outcome of a `handleCommand` run: the promise resolves
with the fulfilment of a normal match, resolves with the question name
when an active question's answer matched, rejects with the question
name when it did not, or rejects with nothing when nothing matched. -/
inductive HCOutcome where
  | fulfilled (f : IntentFulfilment)
  | questionResolved (question : String)
  | questionRejected (question : String)
  | rejectedNoMatch
deriving DecidableEq

/-- The result of a modelled run: final state, outcome, event trace. -/
structure HCRun where
  state : NLCState
  outcome : HCOutcome
  trace : List Event

/-- The datum passed along to an answer's callbacks: `data || userId`
(a falsy datum falls back to the user id). -/
def answerData (data : Option JSVal) (userId : Option String) : Option JSVal :=
  match data with
  | some d => if jsTruthy d then some d else userId.map (fun u => .str (cl u))
  | none => userId.map (fun u => .str (cl u))

/-- `handleQuestionAnswer` for an active question `q`: clear the active
question first ("Finish the question before the answer is processed, in
case the answer kicks off another question"), then answer through the
question's private sub-engine: on a sub-match the promise resolves with
the question name; otherwise the fail callback runs (inside
`Question.answer`'s catch), then the outer catch clears the question
again and rejects with the question name. -/
def handleQuestionAnswer (s : NLCState) (q : Question) (data : Option JSVal)
    (cmd : List Char) (userId : Option String) : HCRun :=
  let key := userKey userId
  let s1 := finishQuestion s userId
  let sub := scanMatchers s.slotTypes (answerData data userId) (cleanCommand cmd)
    q.subMatchers s1
  match sub.2.1 with
  | some _ => ⟨sub.1, .questionResolved q.name, .clearedQuestion key :: sub.2.2⟩
  | none =>
    let f := runCbAction sub.1 q.failCb
    let s4 := finishQuestion f.1 userId
    ⟨s4, .questionRejected q.name,
      .clearedQuestion key :: sub.2.2 ++ .invokedFail q.name :: f.2 ++
        [.clearedQuestion key]⟩

/-- `handleCommand` (after overload resolution: `data` is the caller
datum if any, `userId` the user key if any): clean the command, try the
normal matchers, and on failure fall back to the user's active question
when one exists, otherwise invoke the not-found callback and reject. -/
def handleCommand (s : NLCState) (data : Option JSVal) (command : List Char)
    (userId : Option String) : HCRun :=
  let cmd := cleanCommand command
  let r := scanMatchers s.slotTypes data cmd s.matchers s
  match r.2.1 with
  | some f => ⟨r.1, .fulfilled f, r.2.2⟩
  | none =>
    match getActiveQuestion r.1 userId with
    | some q => handleQuestionAnswer r.1 q data cmd userId
    | none =>
      let nf := runCbAction r.1 s.notFoundCb
      ⟨nf.1, .rejectedNoMatch, r.2.2 ++ .notFoundCalled :: nf.2⟩

/- ===== Registration operations ===== -/

/-- `addSlotType`: refuse duplicates, lower-case string and string-set
matchers, store the type.  `none` models the duplicate-name throw. -/
def addSlotType (s : NLCState) (st : SlotType) : Option NLCState :=
  match lookupKey s.slotTypes st.type with
  | some _ => none
  | none =>
    let st' :=
      match st.matcher with
      | .strSpec str => { st with matcher := .strSpec (lowerStr str) }
      | .listSpec ss => { st with matcher := .listSpec (ss.map lowerStr) }
      | m => { st with matcher := m }
    some { s with slotTypes := setKey s.slotTypes st.type st' }

/-- `removeSlotType`: throw while any registered intent's slot list
references the type (the thrown message names the slot type and the
first such intent; the model records that intent's name, and the state
is returned unchanged since the throw happens before the delete);
otherwise delete the type from the table. -/
def removeSlotType (s : NLCState) (slotTypeName : String) :
    NLCState × Option String :=
  match s.intents.find? (fun intent =>
      (intent.slots.map (fun sl => sl.type)).contains slotTypeName) with
  | some intent => (s, some intent.intent)
  | none =>
    ({ s with slotTypes := s.slotTypes.filter (fun kv => kv.1 ≠ slotTypeName) },
      none)

/-- `registerIntent`: refuse duplicate names (`some (s, false)`), else
record the intent and push a matcher per utterance, in order.  A
matcher-constructor throw is modelled as `none`. -/
def registerIntent (mist : List Char → Option (List Char)) (s : NLCState)
    (intent : Intent) : Option (NLCState × Bool) :=
  if doesIntentExist s intent.intent then some (s, false)
  else
    match intent.utterances.mapM (mkMatcher mist s.slotTypes intent) with
    | none => none
    | some ms =>
      some ({ s with
          intents := s.intents ++ [intent]
          intentNames := s.intentNames ++ [intent.intent]
          matchers := s.matchers ++ ms }, true)

/-- `removeUtterance`: `false` when the intent is unknown or does not
have the utterance; otherwise remove the utterance from that intent and
reject every matcher whose original utterance equals the text. -/
def removeUtterance (s : NLCState) (intentName : String)
    (utterance : List Char) : NLCState × Bool :=
  match s.intents.find? (fun intent => intent.intent = intentName) with
  | none => (s, false)
  | some intent =>
    if intent.utterances.contains utterance then
      ({ s with
          intents := s.intents.map (fun i =>
            if i.intent = intentName then
              { i with utterances := i.utterances.filter (fun u => u ≠ utterance) }
            else i)
          matchers := s.matchers.filter (fun m => m.originalUtterance ≠ utterance) },
        true)
    else (s, false)

/-- The default utterance list of a question: just the slot. -/
def justTheSlot : List (List Char) := [cl "{Slot}"]

/-- The private question intent built from a question's data. -/
def questionIntent (qd : QuestionData) : Intent :=
  { intent := qd.name
    slots := [⟨"Slot", qd.slotType⟩]
    utterances := qd.utterances.getD justTheSlot
    cb := qd.successCb }

/-- The private cancel intent (registered first, when a cancel callback
exists). -/
def cancelIntent (cancelCb : CbAction) : Intent :=
  { intent := "CANCEL"
    slots := [⟨"Slot", "NEVERMIND"⟩]
    utterances := justTheSlot
    cb := cancelCb }

/-- `registerQuestion`: refuse duplicate names, else build the question
with its private sub-engine (cancel intent first, then the question
intent), sharing the parent's slot types.  A compile failure in either
intent models the corresponding constructor throw. -/
def registerQuestion (mist : List Char → Option (List Char)) (s : NLCState)
    (qd : QuestionData) : Option (NLCState × Bool) :=
  if doesIntentExist s qd.name then some (s, false)
  else
    let cancelMs :=
      match qd.cancelCb with
      | some cb => (cancelIntent cb).utterances.mapM
          (mkMatcher mist s.slotTypes (cancelIntent cb))
      | none => some []
    match cancelMs with
    | none => none
    | some cms =>
      match (questionIntent qd).utterances.mapM
          (mkMatcher mist s.slotTypes (questionIntent qd)) with
      | none => none
      | some qms =>
        let q : Question :=
          { name := qd.name, subMatchers := cms ++ qms,
            failCb := qd.failCb, questionCb := qd.questionCb }
        some ({ s with
            intentNames := s.intentNames ++ [qd.name]
            questions := setKey s.questions qd.name q }, true)

/-- `ask` (after overload resolution): when the question is registered,
synchronously activate it for the user and, on the deferred tick,
invoke its question callback and resolve `true`; otherwise reject
`false`. -/
def ask (s : NLCState) (userId : Option String) (questionName : String) :
    NLCState × Bool × List Event :=
  match lookupKey s.questions questionName with
  | some q =>
    let s1 := setActiveQuestion s userId (some q)
    let r := runCbAction s1 q.questionCb
    (r.1, true, .invokedQuestionCb questionName :: r.2)
  | none => (s, false, [])

/- ===== Standard slot types (`lib/standardSlots.ts`) ===== -/

/-- Strip surrounding whitespace. -/
def trimWs (cs : List Char) : List Char :=
  ((cs.dropWhile jsIsWs).reverse.dropWhile jsIsWs).reverse

/-- Are all characters decimal digits? -/
def allDigits (ds : List Char) : Bool :=
  ds.all (fun c => 48 ≤ c.toNat && c.toNat ≤ 57)

/-- The natural number denoted by a digit string. -/
def digitsToNat (ds : List Char) : ℕ :=
  ds.foldl (fun n c => n * 10 + (c.toNat - 48)) 0

/-- The mantissa of a decimal numeric string, as a scaled pair
`(value, scale)` denoting `value / 10 ^ scale`: digits with at most one
decimal point and at least one digit. -/
def parseDecimalMantissa (cs : List Char) : Option (ℕ × ℕ) :=
  let intPart := cs.takeWhile (fun c => c ≠ '.')
  match cs.drop intPart.length with
  | [] => if intPart.isEmpty ∨ !allDigits intPart then none
          else some (digitsToNat intPart, 0)
  | '.' :: frac =>
    if (intPart.isEmpty ∧ frac.isEmpty) ∨ !allDigits intPart ∨ !allDigits frac
    then none
    else some (digitsToNat intPart * 10 ^ frac.length + digitsToNat frac,
      frac.length)
  | _ => none

/-- `Number(string)` (what `_.toNumber` applies to a string), modelled
on the sign/decimal/exponent fragment of JavaScript numeric literals
with `ℚ` as the number type: trim, empty is `0`, otherwise an optional
sign, a decimal mantissa and an optional exponent.  Hexadecimal, octal,
binary and `Infinity` forms are outside the model (mapped to `none`,
i.e. `NaN`); no claim exercises them. -/
def parseJsNumber (cs0 : List Char) : Option ℚ :=
  let cs := trimWs cs0
  if cs.isEmpty then some (mkRat 0 1)
  else
    let sr : Bool × List Char :=
      match cs with
      | '-' :: r => (true, r)
      | '+' :: r => (false, r)
      | r => (false, r)
    let mant := sr.2.takeWhile (fun c => c ≠ 'e' ∧ c ≠ 'E')
    match parseDecimalMantissa mant with
    | none => none
    | some mv =>
      let signed : ℤ := if sr.1 then -(mv.1 : ℤ) else (mv.1 : ℤ)
      match sr.2.drop mant.length with
      | [] => some (mkRat signed (10 ^ mv.2))
      | _ :: es =>
        let er : Bool × List Char :=
          match es with
          | '-' :: r => (true, r)
          | '+' :: r => (false, r)
          | r => (false, r)
        if er.2.isEmpty ∨ !allDigits er.2 then none
        else if er.1 then some (mkRat signed (10 ^ mv.2 * 10 ^ digitsToNat er.2))
        else some (mkRat (signed * ((10 : ℤ) ^ digitsToNat er.2)) (10 ^ mv.2))

/-- `standardSlots.NUMBER`'s matcher function: strip the formatting
commas, convert with `_.toNumber`, and return `undefined` on `NaN`. -/
def numberMatcher (text : List Char) : Option JSVal :=
  (parseJsNumber (text.filter (fun c => c ≠ ','))).map JSVal.num

/-- `standardSlots.STRING`: the identity function as matcher, no
`baseMatcher`. -/
def STRING : SlotType :=
  { type := "STRING", matcher := .funcSpec (fun t => some (.str t)) }

/-- `standardSlots.WORD`: the identity function with `baseMatcher`
`\w+`. -/
def WORD : SlotType :=
  { type := "WORD", matcher := .funcSpec (fun t => some (.str t)),
    baseMatcher := some (cl "\\w+") }

/-- `standardSlots.NUMBER`. -/
def NUMBER : SlotType :=
  { type := "NUMBER", matcher := .funcSpec numberMatcher,
    baseMatcher := some (cl "[\\d,]+(?:\\.[\\d,]+)?") }

/- ===== Notions used to state case-insensitivity (C5) ===== -/

/-- Lower the observable part of an engine result, to state that two
results agree up to letter case. -/
def lowRes (r : List (List Char) × List Char) : List (List Char) × List Char :=
  (r.1.map lowerStr, lowerStr r.2)

/-- Lower the string content of a value. -/
def jsvalLower : JSVal → JSVal
  | .str s => .str (lowerStr s)
  | .num q => .num q

/-- Lower the value of a binding. -/
def kvLower (kv : String × JSVal) : String × JSVal := (kv.1, jsvalLower kv.2)

/-- Lower the value of a fulfilment. -/
def fulLower (f : SlotFulfilment) : SlotFulfilment :=
  ⟨f.name, f.value.map jsvalLower⟩

/-- Is the matcher spec an exact string or a string set? -/
def isStrOrList : SlotMatcherSpec → Bool
  | .strSpec _ => true
  | .listSpec _ => true
  | _ => false

/- ===== Relational semantics of the token language (C9) ===== -/

/-- The nondeterministic matching relation:
`MatchR ts st cs caps rest` holds when the token list can consume a
prefix of `cs` leaving `rest`, capturing `caps` (in group order).  The
flag `st` plays the role it has in `matchToks`: whether the current
position is the start of the input. -/
inductive MatchR : List Tok → Bool → List Char → List (List Char) → List Char → Prop
  | nil (st : Bool) (cs : List Char) : MatchR [] st cs [] cs
  | caret {ts : List Tok} {cs : List Char} {caps : List (List Char)}
      {rest : List Char} :
      MatchR ts true cs caps rest → MatchR (Tok.caret :: ts) true cs caps rest
  | dollar {ts : List Tok} {st : Bool} {caps : List (List Char)}
      {rest : List Char} :
      MatchR ts st [] caps rest → MatchR (Tok.dollar :: ts) st [] caps rest
  | lit {c d : Char} {ts : List Tok} {st : Bool} {ds : List Char}
      {caps : List (List Char)} {rest : List Char} :
      lowerEqb c d = true → MatchR ts false ds caps rest →
      MatchR (Tok.lit c :: ts) st (d :: ds) caps rest
  | wsPlus {ts : List Tok} {st : Bool} {cs : List Char} {k : Nat}
      {caps : List (List Char)} {rest : List Char} :
      1 ≤ k → k ≤ cs.length → (cs.take k).all jsIsWs = true →
      MatchR ts false (cs.drop k) caps rest →
      MatchR (Tok.wsPlus :: ts) st cs caps rest
  | wsStarZero {ts : List Tok} {st : Bool} {cs : List Char}
      {caps : List (List Char)} {rest : List Char} :
      MatchR ts st cs caps rest → MatchR (Tok.wsStar :: ts) st cs caps rest
  | wsStarPos {ts : List Tok} {st : Bool} {cs : List Char} {k : Nat}
      {caps : List (List Char)} {rest : List Char} :
      1 ≤ k → k ≤ cs.length → (cs.take k).all jsIsWs = true →
      MatchR ts false (cs.drop k) caps rest →
      MatchR (Tok.wsStar :: ts) st cs caps rest
  | group {g : GroupClass} {ts : List Tok} {st : Bool} {cs : List Char}
      {k : Nat} {caps : List (List Char)} {rest : List Char} :
      1 ≤ k → k ≤ cs.length → (cs.take k).all g.test = true →
      MatchR ts false (cs.drop k) caps rest →
      MatchR (Tok.group g :: ts) st cs (cs.take k :: caps) rest

/- ===== Concrete instances used by the witnesses ===== -/

/-- An empty misspelling capability (a corpus with no known
misspellings). -/
def noMistakes : List Char → Option (List Char) := fun _ => none

/-- A placeholder matcher used only as the default of `Option.getD`. -/
def fallbackMatcher : Matcher :=
  { originalUtterance := [], intent := { intent := "", utterances := [] },
    pattern := [], slotMapping := [] }

/-- An intent named `hello` whose only utterance is `greet me`. -/
def helloIntent : Intent := { intent := "hello", utterances := [cl "greet me"] }

/-- A state with just `helloIntent` registered. -/
def helloState : NLCState :=
  ((registerIntent noMistakes initialState helloIntent).getD
    (initialState, false)).1

/-- A state with the `STRING` slot type registered. -/
def stringState : NLCState := (addSlotType initialState STRING).getD initialState

/-- A slotless intent `TEST` matching the utterance `test`. -/
def testIntent : Intent := { intent := "TEST", utterances := [cl "test"] }

/-- A state with `STRING` and `testIntent`. -/
def testState : NLCState :=
  ((registerIntent noMistakes stringState testIntent).getD
    (stringState, false)).1

/-- An intent with slots declared `[A, B]` but an utterance using them
in the opposite order. -/
def abIntent : Intent :=
  { intent := "AB", slots := [⟨"A", "STRING"⟩, ⟨"B", "STRING"⟩],
    utterances := [cl "{B} then {A}"] }

/-- The compiled matcher of `abIntent`. -/
def abMatcher : Matcher :=
  (mkMatcher noMistakes stringState.slotTypes abIntent
    (cl "{B} then {A}")).getD fallbackMatcher

/-- `testState` extended with a question `Q1` (slot type `STRING`,
success callback asking `Q2`), a question `Q2`, and `Q1` made active
for the anonymous user. -/
def questionActiveState : NLCState :=
  let s1 := ((registerQuestion noMistakes testState
    { name := "Q1", slotType := "STRING",
      successCb := CbAction.ask none "Q2" }).getD (testState, false)).1
  let s2 := ((registerQuestion noMistakes s1
    { name := "Q2", slotType := "STRING" }).getD (s1, false)).1
  (ask s2 none "Q1").1

/-- Two intents `A` and `B`, each with the same utterance text
`hello`. -/
def twoIntentState : NLCState :=
  let sA := ((registerIntent noMistakes initialState
    { intent := "A", utterances := [cl "hello"] }).getD (initialState, false)).1
  ((registerIntent noMistakes sA
    { intent := "B", utterances := [cl "hello"] }).getD (sA, false)).1

/-- A slot type whose matcher is the (mixed-case) string `Red`. -/
def colorType : SlotType := { type := "COLOR", matcher := .strSpec (cl "Red") }

/-- A state with `colorType` registered (its matcher stored
lower-cased). -/
def colorState : NLCState := (addSlotType initialState colorType).getD initialState

/-- An intent with a `COLOR` slot. -/
def colorIntent : Intent :=
  { intent := "C", slots := [⟨"Color", "COLOR"⟩],
    utterances := [cl "{Color} please"] }

/-- The compiled matcher of `colorIntent`. -/
def colorMatcher : Matcher :=
  (mkMatcher noMistakes colorState.slotTypes colorIntent
    (cl "{Color} please")).getD fallbackMatcher

/-- A catch-all intent whose only utterance is the bare slot
placeholder `{Slot}`. -/
def catchIntent : Intent :=
  { intent := "CATCH", slots := [⟨"Slot", "STRING"⟩],
    utterances := [cl "{Slot}"] }

/-- `CATCH` registered before the more specific slotless `SPEC`
(utterance `test`). -/
def bareState : NLCState :=
  let s1 := ((registerIntent noMistakes stringState catchIntent).getD
    (stringState, false)).1
  ((registerIntent noMistakes s1
    { intent := "SPEC", utterances := [cl "test"] }).getD (s1, false)).1

/-- An intent relying on the `COLOR` slot type (for the remove test). -/
def usesColorState : NLCState :=
  ((registerIntent noMistakes colorState colorIntent).getD
    (colorState, false)).1

/-- A placeholder question used only as the default of `Option.getD`. -/
def fallbackQuestion : Question := { name := "", subMatchers := [] }

/-- The question `Q1` as registered in `questionActiveState`. -/
def exampleQ1 : Question :=
  (lookupKey questionActiveState.questions "Q1").getD fallbackQuestion

/-- The question `Q2` as registered in `questionActiveState`. -/
def exampleQ2 : Question :=
  (lookupKey questionActiveState.questions "Q2").getD fallbackQuestion

/-- The single sub-matcher of `Q1` (compiled from `{Slot}`). -/
def exampleQ1Matcher : Matcher := exampleQ1.subMatchers.headD fallbackMatcher

/-- The compiled matcher of the slotless `TEST` intent (utterance
`test`). -/
def testMatcher : Matcher := testState.matchers.headD fallbackMatcher

/- ===================================================================
   Theorems.
   =================================================================== -/

/- ===== Association-list helper lemmas ===== -/

theorem lookupKey_setKey_self {α : Type} (l : List (String × α)) (k : String)
    (v : α) : lookupKey (setKey l k v) k = some v := by
  induction l with
  | nil => simp [setKey, lookupKey]
  | cons kv rest ih =>
    obtain ⟨a, b⟩ := kv
    by_cases h : a = k <;> simp [setKey, lookupKey, h, ih]

theorem lookupKey_filter_ne_self {α : Type} (l : List (String × α))
    (k : String) : lookupKey (l.filter (fun kv => kv.1 ≠ k)) k = none := by
  induction l with
  | nil => simp [lookupKey]
  | cons kv rest ih =>
    obtain ⟨a, b⟩ := kv
    by_cases h : a = k
    · simpa [List.filter, h] using ih
    · simpa [List.filter, h, lookupKey] using ih

/- ===== Scan helper lemmas ===== -/

/-- The found match of the imperative scan is the pure `scanFound`. -/
theorem scanMatchers_found (t : SlotTable) (d : Option JSVal) (c : List Char) :
    ∀ (ms : List Matcher) (s : NLCState),
      (scanMatchers t d c ms s).2.1 = scanFound t c ms := by
  intro ms
  induction ms with
  | nil => intro s; rfl
  | cons m rest ih =>
    intro s
    simp only [scanMatchers, scanFound]
    cases m.check t c with
    | none => exact ih s
    | some fl =>
      by_cases hb : isBareSlotUtterance m.originalUtterance = true
      · simp only [hb, if_pos]
        simp [ih]
      · simp only [Bool.not_eq_true] at hb
        simp [hb]

/-- A scan that finds nothing changes no state, invokes nothing and
emits no events. -/
theorem scanMatchers_of_found_none (t : SlotTable) (d : Option JSVal)
    (c : List Char) :
    ∀ (ms : List Matcher) (s : NLCState), scanFound t c ms = none →
      scanMatchers t d c ms s = (s, none, []) := by
  intro ms
  induction ms with
  | nil => intro s _; rfl
  | cons m rest ih =>
    intro s h
    simp only [scanFound] at h
    simp only [scanMatchers]
    cases hc : m.check t c with
    | none =>
      rw [hc] at h
      exact ih s h
    | some fl =>
      rw [hc] at h
      by_cases hb : isBareSlotUtterance m.originalUtterance = true <;>
        simp [hb] at h

/- ===== Case-folding helper lemmas ===== -/

theorem char_eq_of_toNat_eq {c d : Char} (h : c.toNat = d.toNat) : c = d := by
  rw [← Char.ofNat_toNat c, ← Char.ofNat_toNat d, h]

theorem toNat_jsToLower (c : Char) :
    (jsToLower c).toNat =
      if 65 ≤ c.toNat ∧ c.toNat ≤ 90 then c.toNat + 32 else c.toNat := by
  show (Char.toLower c).toNat = _
  unfold Char.toLower
  by_cases h : 65 ≤ c.toNat ∧ c.toNat ≤ 90
  · rw [if_pos ⟨h.1, h.2⟩, if_pos h]
    have hv : (c.toNat + 32).isValidChar := Or.inl (by omega)
    rw [Char.ofNat, dif_pos hv]
    rfl
  · rw [if_neg ?hne, if_neg h]
    case hne =>
      intro hc
      exact h ⟨hc.1, hc.2⟩

theorem jsToLower_eq_cases {c d : Char} (h : jsToLower c = jsToLower d) :
    c = d ∨ (65 ≤ c.toNat ∧ c.toNat ≤ 90 ∧ d.toNat = c.toNat + 32) ∨
      (65 ≤ d.toNat ∧ d.toNat ≤ 90 ∧ c.toNat = d.toNat + 32) := by
  have hn : (jsToLower c).toNat = (jsToLower d).toNat := by rw [h]
  rw [toNat_jsToLower, toNat_jsToLower] at hn
  by_cases hc : 65 ≤ c.toNat ∧ c.toNat ≤ 90 <;>
    by_cases hd : 65 ≤ d.toNat ∧ d.toNat ≤ 90
  · rw [if_pos hc, if_pos hd] at hn
    exact Or.inl (char_eq_of_toNat_eq (by omega))
  · rw [if_pos hc, if_neg hd] at hn
    exact Or.inr (Or.inl ⟨hc.1, hc.2, by omega⟩)
  · rw [if_neg hc, if_pos hd] at hn
    exact Or.inr (Or.inr ⟨hd.1, hd.2, by omega⟩)
  · rw [if_neg hc, if_neg hd] at hn
    exact Or.inl (char_eq_of_toNat_eq hn)

theorem jsIsWs_letter_false {c : Char} (h1 : 65 ≤ c.toNat) (h2 : c.toNat ≤ 122) :
    jsIsWs c = false := by
  simp only [jsIsWs, Bool.or_eq_false_iff, decide_eq_false_iff_not,
    Bool.and_eq_false_iff]
  omega

theorem jsIsWs_of_lower_eq {c d : Char} (h : jsToLower c = jsToLower d) :
    jsIsWs c = jsIsWs d := by
  rcases jsToLower_eq_cases h with rfl | ⟨h1, h2, h3⟩ | ⟨h1, h2, h3⟩
  · rfl
  · rw [jsIsWs_letter_false h1 (by omega), jsIsWs_letter_false (by omega) (by omega)]
  · rw [jsIsWs_letter_false (by omega) (by omega), jsIsWs_letter_false h1 (by omega)]

theorem jsIsLineTerm_letter_false {c : Char} (h1 : 65 ≤ c.toNat)
    (h2 : c.toNat ≤ 122) : jsIsLineTerm c = false := by
  simp only [jsIsLineTerm, Bool.or_eq_false_iff, decide_eq_false_iff_not]
  omega

theorem jsIsDot_of_lower_eq {c d : Char} (h : jsToLower c = jsToLower d) :
    jsIsDot c = jsIsDot d := by
  rcases jsToLower_eq_cases h with rfl | ⟨h1, h2, h3⟩ | ⟨h1, h2, h3⟩
  · rfl
  · simp only [jsIsDot, jsIsLineTerm_letter_false h1 (by omega),
      jsIsLineTerm_letter_false (show 65 ≤ d.toNat by omega)
        (show d.toNat ≤ 122 by omega)]
  · simp only [jsIsDot, jsIsLineTerm_letter_false h1 (by omega),
      jsIsLineTerm_letter_false (show 65 ≤ c.toNat by omega)
        (show c.toNat ≤ 122 by omega)]

theorem jsIsWord_letter_true {c : Char} (h : (65 ≤ c.toNat ∧ c.toNat ≤ 90) ∨
    (97 ≤ c.toNat ∧ c.toNat ≤ 122)) : jsIsWord c = true := by
  simp only [jsIsWord, Bool.or_eq_true, decide_eq_true_eq, Bool.and_eq_true]
  omega

theorem jsIsWord_of_lower_eq {c d : Char} (h : jsToLower c = jsToLower d) :
    jsIsWord c = jsIsWord d := by
  rcases jsToLower_eq_cases h with rfl | ⟨h1, h2, h3⟩ | ⟨h1, h2, h3⟩
  · rfl
  · rw [jsIsWord_letter_true (Or.inl ⟨h1, h2⟩),
      jsIsWord_letter_true (Or.inr (by omega))]
  · rw [jsIsWord_letter_true (Or.inr (by omega)),
      jsIsWord_letter_true (Or.inl ⟨h1, h2⟩)]

theorem groupTest_of_lower_eq (g : GroupClass) {c d : Char}
    (h : jsToLower c = jsToLower d) : g.test c = g.test d := by
  cases g with
  | dotPlus => exact jsIsDot_of_lower_eq h
  | wordPlus => exact jsIsWord_of_lower_eq h

theorem lowerEqb_congr (a : Char) {c d : Char}
    (h : jsToLower c = jsToLower d) : lowerEqb a c = lowerEqb a d := by
  simp only [lowerEqb, h]

/- ===== Engine invariance under case variation ===== -/

theorem lowerStr_nil_iff (cs : List Char) : lowerStr cs = [] ↔ cs = [] := by
  cases cs <;> simp [lowerStr]

theorem runLen_congr (cls : Char → Bool)
    (hstab : ∀ c d, jsToLower c = jsToLower d → cls c = cls d) :
    ∀ cs ds : List Char, lowerStr cs = lowerStr ds →
      runLen cls cs = runLen cls ds := by
  intro cs
  induction cs with
  | nil =>
    intro ds h
    rw [show ds = [] from ((lowerStr_nil_iff ds).mp h.symm)]
  | cons c cs ih =>
    intro ds h
    cases ds with
    | nil => simp [lowerStr] at h
    | cons d ds' =>
      simp only [lowerStr, List.map_cons, List.cons.injEq] at h
      have hc := hstab c d h.1
      simp only [runLen, hc, ih ds' h.2]

theorem tryDown_map_eq {α β : Type} (g : α → β) (f f' : Nat → Option α)
    (lo : Nat) (h : ∀ k, (f k).map g = (f' k).map g) :
    ∀ n, (tryDown f lo n).map g = (tryDown f' lo n).map g := by
  intro n
  induction n with
  | zero =>
    simp only [tryDown]
    split
    · exact h 0
    · rfl
  | succ n ih =>
    simp only [tryDown]
    split
    · rfl
    · have hk := h (n + 1)
      cases hfk : f (n + 1) with
      | none =>
        cases hf'k : f' (n + 1) with
        | none => simpa using ih
        | some b => rw [hfk, hf'k] at hk; simp at hk
      | some a =>
        cases hf'k : f' (n + 1) with
        | none => rw [hfk, hf'k] at hk; simp at hk
        | some b =>
          rw [hfk, hf'k] at hk
          simpa using hk

theorem map_lowRes_cons_congr (t1 t2 : List Char)
    (h : lowerStr t1 = lowerStr t2)
    (o1 o2 : Option (List (List Char) × List Char))
    (ho : o1.map lowRes = o2.map lowRes) :
    (o1.map (fun r => (t1 :: r.1, r.2))).map lowRes =
      (o2.map (fun r => (t2 :: r.1, r.2))).map lowRes := by
  cases o1 with
  | none =>
    cases o2 with
    | none => rfl
    | some r => simp at ho
  | some r =>
    cases o2 with
    | none => simp at ho
    | some r' =>
      obtain ⟨caps, rest⟩ := r
      obtain ⟨caps2, rest2⟩ := r'
      simp only [Option.map_some', Option.some.injEq, lowRes, Prod.mk.injEq,
        List.map_cons, List.cons.injEq] at ho ⊢
      exact ⟨⟨h, ho.1⟩, ho.2⟩

theorem lowerStr_drop (k : Nat) {cs ds : List Char}
    (h : lowerStr cs = lowerStr ds) :
    lowerStr (cs.drop k) = lowerStr (ds.drop k) := by
  simp only [lowerStr, List.map_drop]
  exact congrArg (List.drop k) h

theorem lowerStr_take (k : Nat) {cs ds : List Char}
    (h : lowerStr cs = lowerStr ds) :
    lowerStr (cs.take k) = lowerStr (ds.take k) := by
  simp only [lowerStr, List.map_take]
  exact congrArg (List.take k) h

theorem matchToks_ci :
    ∀ (ts : List Tok) (st : Bool) (cs ds : List Char),
      lowerStr cs = lowerStr ds →
      (matchToks ts st cs).map lowRes = (matchToks ts st ds).map lowRes := by
  intro ts
  induction ts with
  | nil =>
    intro st cs ds h
    simp [matchToks, lowRes, h]
  | cons t ts ih =>
    intro st cs ds h
    cases t with
    | caret =>
      simp only [matchToks]
      by_cases hst : st = true
      · simp only [hst, if_true]
        exact ih true cs ds h
      · simp only [Bool.not_eq_true] at hst
        simp [hst]
    | dollar =>
      have hlen : cs.isEmpty = ds.isEmpty := by
        cases cs with
        | nil => rw [show ds = [] from ((lowerStr_nil_iff ds).mp h.symm)]
        | cons c cs2 =>
          cases ds with
          | nil => simp [lowerStr] at h
          | cons d ds2 => rfl
      simp only [matchToks, ← hlen]
      by_cases he : cs.isEmpty = true
      · simp only [he, if_true]
        exact ih st cs ds h
      · simp only [Bool.not_eq_true] at he
        simp [he]
    | lit c =>
      cases cs with
      | nil =>
        rw [show ds = [] from ((lowerStr_nil_iff ds).mp h.symm)]
      | cons a as =>
        cases ds with
        | nil => simp [lowerStr] at h
        | cons b bs =>
          simp only [lowerStr, List.map_cons, List.cons.injEq] at h
          simp only [matchToks, lowerEqb_congr c h.1]
          by_cases hle : lowerEqb c b = true
          · simp only [hle, if_true]
            exact ih false as bs h.2
          · simp only [Bool.not_eq_true] at hle
            simp [hle]
    | wsPlus =>
      simp only [matchToks]
      rw [runLen_congr jsIsWs (fun _ _ => jsIsWs_of_lower_eq) cs ds h]
      refine tryDown_map_eq lowRes _ _ 1 ?_ _
      intro k
      exact ih (st && k == 0) (cs.drop k) (ds.drop k) (lowerStr_drop k h)
    | wsStar =>
      simp only [matchToks]
      rw [runLen_congr jsIsWs (fun _ _ => jsIsWs_of_lower_eq) cs ds h]
      refine tryDown_map_eq lowRes _ _ 0 ?_ _
      intro k
      exact ih (st && k == 0) (cs.drop k) (ds.drop k) (lowerStr_drop k h)
    | group g =>
      simp only [matchToks]
      rw [runLen_congr g.test (fun _ _ => groupTest_of_lower_eq g) cs ds h]
      refine tryDown_map_eq lowRes _ _ 1 ?_ _
      intro k
      exact map_lowRes_cons_congr _ _ (lowerStr_take k h) _ _
        (ih (st && k == 0) (cs.drop k) (ds.drop k) (lowerStr_drop k h))

theorem searchGo_ci (ts : List Tok) :
    ∀ (cs : List Char) (st : Bool) (ds : List Char),
      lowerStr cs = lowerStr ds →
      (searchGo ts st cs).map lowRes = (searchGo ts st ds).map lowRes := by
  intro cs
  induction cs with
  | nil =>
    intro st ds h
    rw [show ds = [] from ((lowerStr_nil_iff ds).mp h.symm)]
  | cons c cs ih =>
    intro st ds h
    cases ds with
    | nil => simp [lowerStr] at h
    | cons d ds' =>
      have hm := matchToks_ci ts st (c :: cs) (d :: ds') h
      simp only [searchGo]
      cases h1 : matchToks ts st (c :: cs) with
      | some r =>
        cases h2 : matchToks ts st (d :: ds') with
        | none => rw [h1, h2] at hm; simp at hm
        | some r2 =>
          rw [h1, h2] at hm
          simpa using hm
      | none =>
        cases h2 : matchToks ts st (d :: ds') with
        | some r2 => rw [h1, h2] at hm; simp at hm
        | none =>
          have htail : lowerStr cs = lowerStr ds' := by
            simp only [lowerStr, List.map_cons, List.cons.injEq] at h
            exact h.2
          exact ih false ds' htail

theorem jsSearch_ci (ts : List Tok) (cs ds : List Char)
    (h : lowerStr cs = lowerStr ds) :
    (jsSearch ts cs).map (List.map lowerStr) =
      (jsSearch ts ds).map (List.map lowerStr) := by
  have hs := searchGo_ci ts cs true ds h
  simp only [jsSearch]
  cases h1 : searchGo ts true cs with
  | none =>
    cases h2 : searchGo ts true ds with
    | none => rfl
    | some r2 => rw [h1, h2] at hs; simp at hs
  | some r =>
    cases h2 : searchGo ts true ds with
    | none => rw [h1, h2] at hs; simp at hs
    | some r2 =>
      rw [h1, h2] at hs
      simp only [Option.map_some', Option.some.injEq, lowRes, Prod.mk.injEq]
        at hs ⊢
      exact hs.1

/- ===== Slot evaluation invariance under case variation ===== -/

theorem checkSlotMatch_strOrList_value (slotTypes : SlotTable) (tn : String)
    (st' : SlotType) (text : List Char) (v : JSVal)
    (hlk : lookupKey slotTypes tn = some st')
    (hsl : isStrOrList st'.matcher = true)
    (h : checkSlotMatch slotTypes text tn = some v) : v = .str text := by
  obtain ⟨ty, m, bm⟩ := st'
  simp only [checkSlotMatch, hlk] at h
  cases m with
  | strSpec s =>
    have h' : (if lowerStr text = s then some (JSVal.str text) else none)
        = some v := h
    split at h'
    · exact (Option.some.inj h').symm
    · exact absurd h' (by simp)
  | listSpec ss =>
    have h' : (if ss.contains (lowerStr text) then some (JSVal.str text)
        else none) = some v := h
    split at h'
    · exact (Option.some.inj h').symm
    · exact absurd h' (by simp)
  | regexpSpec t => simp [isStrOrList] at hsl
  | funcSpec f => simp [isStrOrList] at hsl

theorem checkSlotMatch_ci (slotTypes : SlotTable) (tn : String)
    (st' : SlotType) (hlk : lookupKey slotTypes tn = some st')
    (hsl : isStrOrList st'.matcher = true) (t1 t2 : List Char)
    (h : lowerStr t1 = lowerStr t2) :
    (checkSlotMatch slotTypes t1 tn).map jsvalLower =
      (checkSlotMatch slotTypes t2 tn).map jsvalLower := by
  obtain ⟨ty, m, bm⟩ := st'
  simp only [checkSlotMatch, hlk]
  cases m with
  | strSpec s =>
    show (if lowerStr t1 = s then some (JSVal.str t1) else none).map jsvalLower
      = (if lowerStr t2 = s then some (JSVal.str t2) else none).map jsvalLower
    rw [h]
    by_cases hc : lowerStr t2 = s
    · rw [if_pos hc, if_pos hc]
      simp [jsvalLower, h]
    · rw [if_neg hc, if_neg hc]
  | listSpec ss =>
    show (if ss.contains (lowerStr t1) then some (JSVal.str t1)
        else none).map jsvalLower
      = (if ss.contains (lowerStr t2) then some (JSVal.str t2)
        else none).map jsvalLower
    rw [h]
    by_cases hc : ss.contains (lowerStr t2) = true
    · rw [if_pos hc, if_pos hc]
      simp [jsvalLower, h]
    · rw [if_neg hc, if_neg hc]
  | regexpSpec t => simp [isStrOrList] at hsl
  | funcSpec f => simp [isStrOrList] at hsl

theorem setKey_kvLower_congr (k : String) {v1 v2 : JSVal}
    (hv : jsvalLower v1 = jsvalLower v2) :
    ∀ (a1 a2 : List (String × JSVal)), a1.map kvLower = a2.map kvLower →
      (setKey a1 k v1).map kvLower = (setKey a2 k v2).map kvLower := by
  intro a1
  induction a1 with
  | nil =>
    intro a2 h
    cases a2 with
    | nil => simp [setKey, kvLower, hv]
    | cons kv rest => simp at h
  | cons kv rest ih =>
    intro a2 h
    cases a2 with
    | nil => simp at h
    | cons kv2 rest2 =>
      obtain ⟨a, b⟩ := kv
      obtain ⟨a2k, b2⟩ := kv2
      simp only [List.map_cons, List.cons.injEq, kvLower, Prod.mk.injEq] at h
      obtain ⟨⟨hk, hvv⟩, htail⟩ := h
      subst hk
      simp only [setKey]
      by_cases ha : a = k
      · simp [ha, kvLower, hv, hvv, htail]
      · simp [ha, kvLower, hvv, ih rest2 htail]

theorem lookupKey_kvLower_congr (k : String) :
    ∀ (a1 a2 : List (String × JSVal)), a1.map kvLower = a2.map kvLower →
      (lookupKey a1 k).map jsvalLower = (lookupKey a2 k).map jsvalLower := by
  intro a1
  induction a1 with
  | nil =>
    intro a2 h
    cases a2 with
    | nil => rfl
    | cons kv rest => simp at h
  | cons kv rest ih =>
    intro a2 h
    cases a2 with
    | nil => simp at h
    | cons kv2 rest2 =>
      obtain ⟨a, b⟩ := kv
      obtain ⟨a2k, b2⟩ := kv2
      simp only [List.map_cons, List.cons.injEq, kvLower, Prod.mk.injEq] at h
      obtain ⟨⟨hk, hvv⟩, htail⟩ := h
      subst hk
      simp only [lookupKey]
      by_cases ha : a = k
      · simp [ha, hvv]
      · simp only [ha, if_false]
        exact ih rest2 htail

theorem evalSlots_ci (slotTypes : SlotTable) :
    ∀ (mapping : List IntentSlot),
      (∀ sl ∈ mapping, ∃ st', lookupKey slotTypes sl.type = some st' ∧
        isStrOrList st'.matcher = true) →
      ∀ (caps1 caps2 : List (List Char))
        (acc1 acc2 : List (String × JSVal)),
        caps1.map lowerStr = caps2.map lowerStr →
        acc1.map kvLower = acc2.map kvLower →
        (evalSlots slotTypes mapping caps1 acc1).map (List.map kvLower) =
          (evalSlots slotTypes mapping caps2 acc2).map (List.map kvLower) := by
  intro mapping
  induction mapping with
  | nil =>
    intro _ caps1 caps2 acc1 acc2 hcaps hacc
    simp [evalSlots, hacc]
  | cons sl sls ih =>
    intro hsl caps1 caps2 acc1 acc2 hcaps hacc
    cases caps1 with
    | nil =>
      cases caps2 with
      | nil => rfl
      | cons t2 rest2 => simp at hcaps
    | cons t1 rest1 =>
      cases caps2 with
      | nil => simp at hcaps
      | cons t2 rest2 =>
        simp only [List.map_cons, List.cons.injEq] at hcaps
        obtain ⟨st', hlk, hso⟩ := hsl sl (List.mem_cons_self sl sls)
        have hcm := checkSlotMatch_ci slotTypes sl.type st' hlk hso t1 t2
          hcaps.1
        simp only [evalSlots]
        cases h1 : checkSlotMatch slotTypes t1 sl.type with
        | none =>
          cases h2 : checkSlotMatch slotTypes t2 sl.type with
          | none => rfl
          | some v2 => rw [h1, h2] at hcm; simp at hcm
        | some v1 =>
          cases h2 : checkSlotMatch slotTypes t2 sl.type with
          | none => rw [h1, h2] at hcm; simp at hcm
          | some v2 =>
            rw [h1, h2] at hcm
            simp only [Option.map_some', Option.some.injEq] at hcm
            have hv1 := checkSlotMatch_strOrList_value slotTypes sl.type st'
              t1 v1 hlk hso h1
            have hv2 := checkSlotMatch_strOrList_value slotTypes sl.type st'
              t2 v2 hlk hso h2
            subst hv1
            subst hv2
            show Option.map (List.map kvLower)
                (if JSVal.str t1 = JSVal.str [] then none
                  else evalSlots slotTypes sls rest1
                    (setKey acc1 sl.name (JSVal.str t1))) =
              Option.map (List.map kvLower)
                (if JSVal.str t2 = JSVal.str [] then none
                  else evalSlots slotTypes sls rest2
                    (setKey acc2 sl.name (JSVal.str t2)))
            by_cases hn : t1 = []
            · have hn2 : t2 = [] := by
                apply (lowerStr_nil_iff t2).mp
                rw [← hcaps.1, hn]
                rfl
              subst hn
              subst hn2
              rfl
            · have hn2 : t2 ≠ [] := by
                intro hx
                subst hx
                exact hn ((lowerStr_nil_iff t1).mp hcaps.1)
              rw [if_neg (by simp [hn]), if_neg (by simp [hn2])]
              exact ih (fun x hx => hsl x (List.mem_cons_of_mem sl hx))
                rest1 rest2 (setKey acc1 sl.name (JSVal.str t1))
                (setKey acc2 sl.name (JSVal.str t2)) hcaps.2
                (setKey_kvLower_congr sl.name hcm acc1 acc2 hacc)

theorem getOrderedSlots_ci (intent : Intent)
    (b1 b2 : List (String × JSVal)) (h : b1.map kvLower = b2.map kvLower) :
    (getOrderedSlots intent b1).map fulLower =
      (getOrderedSlots intent b2).map fulLower := by
  unfold getOrderedSlots
  induction intent.slots with
  | nil => rfl
  | cons sl sls ih =>
    simp only [List.map_cons, List.cons.injEq]
    constructor
    · simp only [fulLower]
      rw [lookupKey_kvLower_congr sl.name b1 b2 h]
    · exact ih

theorem check_ci (slotTypes : SlotTable) (m : Matcher)
    (hsl : ∀ sl ∈ m.slotMapping, ∃ st', lookupKey slotTypes sl.type = some st' ∧
      isStrOrList st'.matcher = true)
    (c1 c2 : List Char) (hc : lowerStr c1 = lowerStr c2) :
    (m.check slotTypes c1).map (List.map fulLower) =
      (m.check slotTypes c2).map (List.map fulLower) := by
  unfold Matcher.check
  cases hp : parseToks m.pattern with
  | none => rfl
  | some ts =>
    show Option.map (List.map fulLower)
        (match jsSearch ts c1 with
          | none => none
          | some caps =>
            if m.slotMapping.isEmpty = true then some []
            else
              match evalSlots slotTypes m.slotMapping caps [] with
              | none => none
              | some bound => some (getOrderedSlots m.intent bound)) =
      Option.map (List.map fulLower)
        (match jsSearch ts c2 with
          | none => none
          | some caps =>
            if m.slotMapping.isEmpty = true then some []
            else
              match evalSlots slotTypes m.slotMapping caps [] with
              | none => none
              | some bound => some (getOrderedSlots m.intent bound))
    have hs := jsSearch_ci ts c1 c2 hc
    cases h1 : jsSearch ts c1 with
    | none =>
      cases h2 : jsSearch ts c2 with
      | none => rfl
      | some caps2 => rw [h1, h2] at hs; simp at hs
    | some caps1 =>
      cases h2 : jsSearch ts c2 with
      | none => rw [h1, h2] at hs; simp at hs
      | some caps2 =>
        rw [h1, h2] at hs
        simp only [Option.map_some', Option.some.injEq] at hs
        by_cases hme : m.slotMapping.isEmpty = true
        · simp [hme]
        · simp only [Bool.not_eq_true] at hme
          simp only [hme, Bool.false_eq_true, if_false]
          have he := evalSlots_ci slotTypes m.slotMapping hsl caps1 caps2
            [] [] hs rfl
          cases e1 : evalSlots slotTypes m.slotMapping caps1 [] with
          | none =>
            cases e2 : evalSlots slotTypes m.slotMapping caps2 [] with
            | none => rfl
            | some b2 => rw [e1, e2] at he; simp at he
          | some b1 =>
            cases e2 : evalSlots slotTypes m.slotMapping caps2 [] with
            | none => rw [e1, e2] at he; simp at he
            | some b2 =>
              rw [e1, e2] at he
              simp only [Option.map_some', Option.some.injEq] at he
              simp only [Option.map_some', Option.some.injEq]
              exact getOrderedSlots_ci m.intent b1 b2 he

/- ===== Token parser and anchoring lemmas (C9) ===== -/

theorem parseToksF_irrel : ∀ (n : Nat) (w : List Char) (m : Nat),
    w.length < n → w.length < m → parseToksF n w = parseToksF m w := by
  intro n
  induction n with
  | zero => intro w m h1 _; exact absurd h1 (Nat.not_lt_zero _)
  | succ n ih =>
    intro w m h1 h2
    cases m with
    | zero => exact absurd h2 (Nat.not_lt_zero _)
    | succ m =>
      cases w with
      | nil => rfl
      | cons c rest =>
        simp only [List.length_cons, Nat.succ_lt_succ_iff] at h1 h2
        simp only [parseToksF]
        have hd2 : (rest.drop 2).length ≤ rest.length := by
          rw [List.length_drop]; omega
        have hd3 : (rest.drop 3).length ≤ rest.length := by
          rw [List.length_drop]; omega
        have hd4 : (rest.drop 4).length ≤ rest.length := by
          rw [List.length_drop]; omega
        by_cases hc1 : c = '\\'
        · rw [if_pos hc1, if_pos hc1]
          by_cases ht1 : rest.take 2 = ['s', '+']
          · rw [if_pos ht1, if_pos ht1,
              ih (rest.drop 2) m (by omega) (by omega)]
          · rw [if_neg ht1, if_neg ht1]
            by_cases ht2 : rest.take 2 = ['s', '*']
            · rw [if_pos ht2, if_pos ht2,
                ih (rest.drop 2) m (by omega) (by omega)]
            · rw [if_neg ht2, if_neg ht2]
        · rw [if_neg hc1, if_neg hc1]
          by_cases hc2 : c = '('
          · rw [if_pos hc2, if_pos hc2]
            by_cases ht3 : rest.take 3 = ['.', '+', ')']
            · rw [if_pos ht3, if_pos ht3,
                ih (rest.drop 3) m (by omega) (by omega)]
            · rw [if_neg ht3, if_neg ht3]
              by_cases ht4 : rest.take 4 = ['\\', 'w', '+', ')']
              · rw [if_pos ht4, if_pos ht4,
                  ih (rest.drop 4) m (by omega) (by omega)]
              · rw [if_neg ht4, if_neg ht4]
          · rw [if_neg hc2, if_neg hc2]
            by_cases hc3 : c = '^'
            · rw [if_pos hc3, if_pos hc3, ih rest m h1 h2]
            · rw [if_neg hc3, if_neg hc3]
              by_cases hc4 : c = '$'
              · rw [if_pos hc4, if_pos hc4, ih rest m h1 h2]
              · rw [if_neg hc4, if_neg hc4]
                by_cases hc5 : isUnsupportedMeta c = true
                · rw [if_pos hc5, if_pos hc5]
                · rw [if_neg hc5, if_neg hc5, ih rest m h1 h2]

theorem parseToks_cons (c : Char) (rest : List Char) :
    parseToks (c :: rest) =
      (if c = '\\' then
        if rest.take 2 = ['s', '+'] then
          (parseToks (rest.drop 2)).map (fun ts => Tok.wsPlus :: ts)
        else if rest.take 2 = ['s', '*'] then
          (parseToks (rest.drop 2)).map (fun ts => Tok.wsStar :: ts)
        else none
      else if c = '(' then
        if rest.take 3 = ['.', '+', ')'] then
          (parseToks (rest.drop 3)).map
            (fun ts => Tok.group GroupClass.dotPlus :: ts)
        else if rest.take 4 = ['\\', 'w', '+', ')'] then
          (parseToks (rest.drop 4)).map
            (fun ts => Tok.group GroupClass.wordPlus :: ts)
        else none
      else if c = '^' then (parseToks rest).map (fun ts => Tok.caret :: ts)
      else if c = '$' then (parseToks rest).map (fun ts => Tok.dollar :: ts)
      else if isUnsupportedMeta c then none
      else (parseToks rest).map (fun ts => Tok.lit c :: ts)) := by
  simp only [parseToks, List.length_cons]
  simp only [parseToksF]
  have hd2 : (rest.drop 2).length ≤ rest.length := by
    rw [List.length_drop]; omega
  have hd3 : (rest.drop 3).length ≤ rest.length := by
    rw [List.length_drop]; omega
  have hd4 : (rest.drop 4).length ≤ rest.length := by
    rw [List.length_drop]; omega
  rw [parseToksF_irrel (rest.length + 1) (rest.drop 2) ((rest.drop 2).length + 1)
      (by omega) (by omega),
    parseToksF_irrel (rest.length + 1) (rest.drop 3) ((rest.drop 3).length + 1)
      (by omega) (by omega),
    parseToksF_irrel (rest.length + 1) (rest.drop 4) ((rest.drop 4).length + 1)
      (by omega) (by omega)]


theorem parseToks_anchor_head (r : List Char) :
    parseToks (cl "^\\s*" ++ r) =
      (parseToks r).map (fun ts => Tok.caret :: Tok.wsStar :: ts) := by
  rw [show cl "^\\s*" ++ r = '^' :: '\\' :: 's' :: '*' :: r from rfl,
    parseToks_cons,
    if_neg (by decide : ¬('^' : Char) = '\\'),
    if_neg (by decide : ¬('^' : Char) = '('),
    if_pos (rfl : ('^' : Char) = '^'),
    parseToks_cons,
    if_pos (rfl : ('\\' : Char) = '\\'),
    if_neg (show ¬List.take 2 ('s' :: '*' :: r) = ['s', '+'] by
      rw [show List.take 2 ('s' :: '*' :: r) = ['s', '*'] from rfl]
      decide),
    if_pos (show List.take 2 ('s' :: '*' :: r) = ['s', '*'] from rfl),
    show List.drop 2 ('s' :: '*' :: r) = r from rfl]
  cases parseToks r <;> rfl


theorem parse_tail_shape : ∀ (n : Nat) (w : List Char), w.length ≤ n →
    ∀ (ts : List Tok), parseToks (w ++ cl "\\s*$") = some ts →
    ∃ body, ts = body ++ [Tok.wsStar, Tok.dollar] := by
  intro n
  induction n with
  | zero =>
    intro w hw ts h
    have hwn : w = [] := List.length_eq_zero.mp (Nat.le_zero.mp hw)
    subst hwn
    rw [show parseToks ([] ++ cl "\\s*$") = some [Tok.wsStar, Tok.dollar]
      from rfl] at h
    exact ⟨[], (Option.some.inj h).symm⟩
  | succ n ih =>
    intro w hw ts h
    cases w with
    | nil =>
      rw [show parseToks ([] ++ cl "\\s*$") = some [Tok.wsStar, Tok.dollar]
        from rfl] at h
      exact ⟨[], (Option.some.inj h).symm⟩
    | cons c w1 =>
      rw [show (c :: w1) ++ cl "\\s*$" = c :: (w1 ++ cl "\\s*$") from rfl,
        parseToks_cons] at h
      simp only [List.length_cons, Nat.succ_le_succ_iff] at hw
      by_cases hc1 : c = '\\'
      · rw [if_pos hc1] at h
        by_cases ht1 : (w1 ++ cl "\\s*$").take 2 = ['s', '+']
        · rw [if_pos ht1] at h
          match w1, hw, ht1, h with
          | [], _, ht1, _ => exact absurd ht1 (by decide)
          | [a], _, ht1, _ =>
            rw [show List.take 2 ([a] ++ cl "\\s*$") = [a, '\\'] from rfl]
              at ht1
            simp only [List.cons.injEq, and_true] at ht1
            exact absurd ht1.2 (by decide)
          | a :: b :: w2, hw, ht1, h =>
            rw [show ((a :: b :: w2) ++ cl "\\s*$").drop 2 = w2 ++ cl "\\s*$"
              from rfl] at h
            obtain ⟨ts', hp', hts⟩ := Option.map_eq_some'.mp h
            obtain ⟨body', hb⟩ := ih w2 (by simp at hw; omega) ts' hp'
            exact ⟨Tok.wsPlus :: body', by rw [← hts, hb]; rfl⟩
        · rw [if_neg ht1] at h
          by_cases ht2 : (w1 ++ cl "\\s*$").take 2 = ['s', '*']
          · rw [if_pos ht2] at h
            match w1, hw, ht2, h with
            | [], _, ht2, h =>
              rw [show (([] : List Char) ++ cl "\\s*$").drop 2 = ['*', '$']
                from rfl] at h
              rw [show parseToks ['*', '$'] = none from rfl] at h
              exact absurd h (by simp)
            | [a], _, ht2, _ =>
              rw [show List.take 2 ([a] ++ cl "\\s*$") = [a, '\\'] from rfl]
                at ht2
              simp only [List.cons.injEq, and_true] at ht2
              exact absurd ht2.2 (by decide)
            | a :: b :: w2, hw, ht2, h =>
              rw [show ((a :: b :: w2) ++ cl "\\s*$").drop 2 = w2 ++ cl "\\s*$"
                from rfl] at h
              obtain ⟨ts', hp', hts⟩ := Option.map_eq_some'.mp h
              obtain ⟨body', hb⟩ := ih w2 (by simp at hw; omega) ts' hp'
              exact ⟨Tok.wsStar :: body', by rw [← hts, hb]; rfl⟩
          · rw [if_neg ht2] at h
            exact absurd h (by simp)
      · rw [if_neg hc1] at h
        by_cases hc2 : c = '('
        · rw [if_pos hc2] at h
          by_cases ht3 : (w1 ++ cl "\\s*$").take 3 = ['.', '+', ')']
          · rw [if_pos ht3] at h
            match w1, hw, ht3, h with
            | [], _, ht3, _ => exact absurd ht3 (by decide)
            | [a], _, ht3, _ =>
              rw [show List.take 3 ([a] ++ cl "\\s*$") = [a, '\\', 's']
                from rfl] at ht3
              simp only [List.cons.injEq, and_true] at ht3
              exact absurd ht3.2.1 (by decide)
            | [a, b], _, ht3, _ =>
              rw [show List.take 3 ([a, b] ++ cl "\\s*$") = [a, b, '\\']
                from rfl] at ht3
              simp only [List.cons.injEq, and_true] at ht3
              exact absurd ht3.2.2 (by decide)
            | a :: b :: c2 :: w2, hw, ht3, h =>
              rw [show ((a :: b :: c2 :: w2) ++ cl "\\s*$").drop 3 =
                w2 ++ cl "\\s*$" from rfl] at h
              obtain ⟨ts', hp', hts⟩ := Option.map_eq_some'.mp h
              obtain ⟨body', hb⟩ := ih w2 (by simp at hw; omega) ts' hp'
              exact ⟨Tok.group GroupClass.dotPlus :: body',
                by rw [← hts, hb]; rfl⟩
          · rw [if_neg ht3] at h
            by_cases ht4 : (w1 ++ cl "\\s*$").take 4 = ['\\', 'w', '+', ')']
            · rw [if_pos ht4] at h
              match w1, hw, ht4, h with
              | [], _, ht4, _ => exact absurd ht4 (by decide)
              | [a], _, ht4, _ =>
                rw [show List.take 4 ([a] ++ cl "\\s*$") = [a, '\\', 's', '*']
                  from rfl] at ht4
                simp only [List.cons.injEq, and_true] at ht4
                exact absurd ht4.2.1 (by decide)
              | [a, b], _, ht4, _ =>
                rw [show List.take 4 ([a, b] ++ cl "\\s*$") = [a, b, '\\', 's']
                  from rfl] at ht4
                simp only [List.cons.injEq, and_true] at ht4
                exact absurd ht4.2.2.1 (by decide)
              | [a, b, c2], _, ht4, _ =>
                rw [show List.take 4 ([a, b, c2] ++ cl "\\s*$") =
                  [a, b, c2, '\\'] from rfl] at ht4
                simp only [List.cons.injEq, and_true] at ht4
                exact absurd ht4.2.2.2 (by decide)
              | a :: b :: c2 :: d :: w2, hw, ht4, h =>
                rw [show ((a :: b :: c2 :: d :: w2) ++ cl "\\s*$").drop 4 =
                  w2 ++ cl "\\s*$" from rfl] at h
                obtain ⟨ts', hp', hts⟩ := Option.map_eq_some'.mp h
                obtain ⟨body', hb⟩ := ih w2 (by simp at hw; omega) ts' hp'
                exact ⟨Tok.group GroupClass.wordPlus :: body',
                  by rw [← hts, hb]; rfl⟩
            · rw [if_neg ht4] at h
              exact absurd h (by simp)
        · rw [if_neg hc2] at h
          by_cases hc3 : c = '^'
          · rw [if_pos hc3] at h
            obtain ⟨ts', hp', hts⟩ := Option.map_eq_some'.mp h
            obtain ⟨body', hb⟩ := ih w1 hw ts' hp'
            exact ⟨Tok.caret :: body', by rw [← hts, hb]; rfl⟩
          · rw [if_neg hc3] at h
            by_cases hc4 : c = '$'
            · rw [if_pos hc4] at h
              obtain ⟨ts', hp', hts⟩ := Option.map_eq_some'.mp h
              obtain ⟨body', hb⟩ := ih w1 hw ts' hp'
              exact ⟨Tok.dollar :: body', by rw [← hts, hb]; rfl⟩
            · rw [if_neg hc4] at h
              by_cases hc5 : isUnsupportedMeta c = true
              · rw [if_pos hc5] at h
                exact absurd h (by simp)
              · rw [if_neg hc5] at h
                obtain ⟨ts', hp', hts⟩ := Option.map_eq_some'.mp h
                obtain ⟨body', hb⟩ := ih w1 hw ts' hp'
                exact ⟨Tok.lit c :: body', by rw [← hts, hb]; rfl⟩

theorem tryDown_elim {α : Type} (f : Nat → Option α) (lo : Nat) :
    ∀ (n : Nat) (r : α), tryDown f lo n = some r →
    ∃ k, lo ≤ k ∧ k ≤ n ∧ f k = some r := by
  intro n
  induction n with
  | zero =>
    intro r h
    rw [tryDown] at h
    by_cases hlo : lo = 0
    · rw [if_pos hlo] at h
      exact ⟨0, by omega, Nat.le_refl 0, h⟩
    · rw [if_neg hlo] at h
      exact absurd h (by simp)
  | succ n ih =>
    intro r h
    rw [tryDown] at h
    by_cases hlt : n + 1 < lo
    · rw [if_pos hlt] at h
      exact absurd h (by simp)
    · rw [if_neg hlt] at h
      cases hf : f (n + 1) with
      | some r' =>
        rw [hf] at h
        exact ⟨n + 1, by omega, Nat.le_refl _, by rw [hf, Option.some.inj h]⟩
      | none =>
        rw [hf] at h
        obtain ⟨k, hk1, hk2, hk3⟩ := ih r h
        exact ⟨k, hk1, by omega, hk3⟩

theorem runLen_le_length (cls : Char → Bool) :
    ∀ (cs : List Char), runLen cls cs ≤ cs.length := by
  intro cs
  induction cs with
  | nil => simp [runLen]
  | cons c cs ih =>
    rw [runLen]
    by_cases hc : cls c = true
    · rw [if_pos hc]; simp; omega
    · rw [if_neg hc]; simp

theorem all_take_of_le_runLen (cls : Char → Bool) :
    ∀ (cs : List Char) (k : Nat), k ≤ runLen cls cs →
    (cs.take k).all cls = true := by
  intro cs
  induction cs with
  | nil => intro k _; simp
  | cons c cs ih =>
    intro k hk
    rw [runLen] at hk
    by_cases hc : cls c = true
    · rw [if_pos hc] at hk
      cases k with
      | zero => simp
      | succ k =>
        rw [List.take_succ_cons, List.all_cons, hc, Bool.true_and]
        exact ih k (by omega)
    · rw [if_neg hc] at hk
      have : k = 0 := by omega
      subst this
      simp

theorem matchToks_sound : ∀ (ts : List Tok) (st : Bool) (cs : List Char)
    (caps : List (List Char)) (rest : List Char),
    matchToks ts st cs = some (caps, rest) → MatchR ts st cs caps rest := by
  intro ts
  induction ts with
  | nil =>
    intro st cs caps rest h
    rw [matchToks] at h
    obtain ⟨h1, h2⟩ := Prod.mk.injEq .. ▸ Option.some.inj h
    rw [← h1, ← h2]
    exact MatchR.nil st cs
  | cons t ts ih =>
    intro st cs caps rest h
    cases t with
    | caret =>
      rw [matchToks] at h
      by_cases hst : st = true
      · rw [if_pos hst] at h
        subst hst
        exact MatchR.caret (ih true cs caps rest h)
      · rw [if_neg hst] at h
        exact absurd h (by simp)
    | dollar =>
      rw [matchToks] at h
      by_cases he : cs.isEmpty = true
      · rw [if_pos he] at h
        have hcs : cs = [] := by
          cases cs
          · rfl
          · simp [List.isEmpty] at he
        subst hcs
        exact MatchR.dollar (ih st [] caps rest h)
      · rw [if_neg he] at h
        exact absurd h (by simp)
    | lit c =>
      cases cs with
      | nil => rw [matchToks] at h; exact absurd h (by simp)
      | cons d ds =>
        rw [matchToks] at h
        by_cases hle : lowerEqb c d = true
        · rw [if_pos hle] at h
          exact MatchR.lit hle (ih false ds caps rest h)
        · rw [if_neg hle] at h
          exact absurd h (by simp)
    | wsPlus =>
      rw [matchToks] at h
      obtain ⟨k, hk1, hk2, hk3⟩ := tryDown_elim _ 1 _ _ h
      have hkz : (k == 0) = false := by
        cases k
        · omega
        · rfl
      rw [hkz, Bool.and_false] at hk3
      exact MatchR.wsPlus hk1
        (Nat.le_trans hk2 (runLen_le_length jsIsWs cs))
        (all_take_of_le_runLen jsIsWs cs k hk2)
        (ih false (cs.drop k) caps rest hk3)
    | wsStar =>
      rw [matchToks] at h
      obtain ⟨k, _, hk2, hk3⟩ := tryDown_elim _ 0 _ _ h
      cases k with
      | zero =>
        rw [show ((0 : Nat) == 0) = true from rfl, Bool.and_true,
          List.drop_zero] at hk3
        exact MatchR.wsStarZero (ih st cs caps rest hk3)
      | succ k =>
        rw [show ((k + 1 : Nat) == 0) = false from rfl, Bool.and_false] at hk3
        exact MatchR.wsStarPos (by omega)
          (Nat.le_trans hk2 (runLen_le_length jsIsWs cs))
          (all_take_of_le_runLen jsIsWs cs (k + 1) hk2)
          (ih false (cs.drop (k + 1)) caps rest hk3)
    | group g =>
      rw [matchToks] at h
      obtain ⟨k, hk1, hk2, hk3⟩ := tryDown_elim _ 1 _ _ h
      have hkz : (k == 0) = false := by
        cases k
        · omega
        · rfl
      rw [hkz, Bool.and_false] at hk3
      obtain ⟨⟨caps', rest'⟩, hp', hmap⟩ := Option.map_eq_some'.mp hk3
      simp only [Prod.mk.injEq] at hmap
      obtain ⟨hcaps, hrest⟩ := hmap
      rw [← hcaps, ← hrest]
      exact MatchR.group hk1
        (Nat.le_trans hk2 (runLen_le_length g.test cs))
        (all_take_of_le_runLen g.test cs k hk2)
        (ih false (cs.drop k) caps' rest' hp')


theorem MatchR_consumed {ts : List Tok} {st : Bool} {cs : List Char}
    {caps : List (List Char)} {rest : List Char}
    (h : MatchR ts st cs caps rest) : ∃ mid, cs = mid ++ rest := by
  induction h with
  | nil st cs => exact ⟨[], rfl⟩
  | caret _ ih => exact ih
  | dollar _ ih => exact ih
  | lit hle _ ih =>
    obtain ⟨mid, hm⟩ := ih
    exact ⟨_ :: mid, by rw [List.cons_append, ← hm]⟩
  | wsPlus hk1 hk2 hall hsub ih =>
    rename_i ts' st' cs' k caps' rest'
    obtain ⟨mid, hm⟩ := ih
    refine ⟨cs'.take k ++ mid, ?_⟩
    rw [List.append_assoc, ← hm, List.take_append_drop]
  | wsStarZero _ ih => exact ih
  | wsStarPos hk1 hk2 hall hsub ih =>
    rename_i ts' st' cs' k caps' rest'
    obtain ⟨mid, hm⟩ := ih
    refine ⟨cs'.take k ++ mid, ?_⟩
    rw [List.append_assoc, ← hm, List.take_append_drop]
  | group hk1 hk2 hall hsub ih =>
    rename_i g ts' st' cs' k caps' rest'
    obtain ⟨mid, hm⟩ := ih
    refine ⟨cs'.take k ++ mid, ?_⟩
    rw [List.append_assoc, ← hm, List.take_append_drop]

theorem MatchR_append_split : ∀ (ts1 ts2 : List Tok) (st : Bool)
    (cs : List Char) (caps : List (List Char)) (rest : List Char),
    MatchR (ts1 ++ ts2) st cs caps rest →
    ∃ st' mid caps1 caps2, MatchR ts1 st cs caps1 mid ∧
      MatchR ts2 st' mid caps2 rest ∧ caps = caps1 ++ caps2 := by
  intro ts1
  induction ts1 with
  | nil =>
    intro ts2 st cs caps rest h
    exact ⟨st, cs, [], caps, MatchR.nil st cs, h, rfl⟩
  | cons t ts1 ih =>
    intro ts2 st cs caps rest h
    cases t with
    | caret =>
      cases h with
      | caret h' =>
        obtain ⟨st', mid, caps1, caps2, h1, h2, hc⟩ := ih ts2 _ _ _ _ h'
        exact ⟨st', mid, caps1, caps2, MatchR.caret h1, h2, hc⟩
    | dollar =>
      cases h with
      | dollar h' =>
        obtain ⟨st', mid, caps1, caps2, h1, h2, hc⟩ := ih ts2 _ _ _ _ h'
        exact ⟨st', mid, caps1, caps2, MatchR.dollar h1, h2, hc⟩
    | lit c =>
      cases h with
      | lit hle h' =>
        obtain ⟨st', mid, caps1, caps2, h1, h2, hc⟩ := ih ts2 _ _ _ _ h'
        exact ⟨st', mid, caps1, caps2, MatchR.lit hle h1, h2, hc⟩
    | wsPlus =>
      cases h with
      | wsPlus hk1 hk2 hall h' =>
        obtain ⟨st', mid, caps1, caps2, h1, h2, hc⟩ := ih ts2 _ _ _ _ h'
        exact ⟨st', mid, caps1, caps2, MatchR.wsPlus hk1 hk2 hall h1, h2, hc⟩
    | wsStar =>
      cases h with
      | wsStarZero h' =>
        obtain ⟨st', mid, caps1, caps2, h1, h2, hc⟩ := ih ts2 _ _ _ _ h'
        exact ⟨st', mid, caps1, caps2, MatchR.wsStarZero h1, h2, hc⟩
      | wsStarPos hk1 hk2 hall h' =>
        obtain ⟨st', mid, caps1, caps2, h1, h2, hc⟩ := ih ts2 _ _ _ _ h'
        exact ⟨st', mid, caps1, caps2, MatchR.wsStarPos hk1 hk2 hall h1, h2, hc⟩
    | group g =>
      cases h with
      | group hk1 hk2 hall h' =>
        obtain ⟨st', mid, caps1, caps2, h1, h2, hc⟩ := ih ts2 _ _ _ _ h'
        exact ⟨st', mid, _ :: caps1, caps2,
          MatchR.group hk1 hk2 hall h1, h2, by rw [hc, List.cons_append]⟩

theorem MatchR_wsStar_dollar {st : Bool} {mid : List Char}
    {caps : List (List Char)} {rest : List Char}
    (h : MatchR [Tok.wsStar, Tok.dollar] st mid caps rest) :
    caps = [] ∧ rest = [] ∧ mid.all jsIsWs = true := by
  cases h with
  | wsStarZero h' =>
    cases h' with
    | dollar h'' =>
      cases h''
      exact ⟨rfl, rfl, rfl⟩
  | wsStarPos hk1 hk2 hall h' =>
    rename_i k
    generalize hd : List.drop k mid = dk at h'
    cases h' with
    | dollar h'' =>
      cases h''
      have hlen : mid.length ≤ k := by
        have hl := congrArg List.length hd
        rw [List.length_drop] at hl
        simp at hl
        omega
      have htake : mid.take k = mid := List.take_of_length_le hlen
      exact ⟨rfl, rfl, by rw [← htake]; exact hall⟩


theorem matchToks_caret_false (ts : List Tok) (cs : List Char) :
    matchToks (Tok.caret :: ts) false cs = none := by
  rw [matchToks]
  rfl

theorem searchGo_caret_none (ts : List Tok) :
    ∀ (cs : List Char), searchGo (Tok.caret :: ts) false cs = none := by
  intro cs
  induction cs with
  | nil => rfl
  | cons c cs ih => exact ih

theorem jsSearch_caret (ts : List Tok) (cmd : List Char)
    (caps : List (List Char))
    (h : jsSearch (Tok.caret :: ts) cmd = some caps) :
    ∃ rest, matchToks (Tok.caret :: ts) true cmd = some (caps, rest) := by
  rw [jsSearch] at h
  have hs : searchGo (Tok.caret :: ts) true cmd =
      matchToks (Tok.caret :: ts) true cmd := by
    cases cmd with
    | nil =>
      simp only [searchGo]
      cases hm : matchToks (Tok.caret :: ts) true [] with
      | some r => rfl
      | none => rfl
    | cons c cs' =>
      simp only [searchGo]
      cases hm : matchToks (Tok.caret :: ts) true (c :: cs') with
      | some r => rfl
      | none => exact searchGo_caret_none ts cs'
  rw [hs] at h
  cases hm : matchToks (Tok.caret :: ts) true cmd with
  | some r =>
    rw [hm] at h
    simp only [Option.map_some', Option.some.injEq] at h
    exact ⟨r.2, by rw [← h]⟩
  | none =>
    rw [hm] at h
    simp at h

theorem matchToks_lastDollar : ∀ (ts : List Tok) (st : Bool) (cs : List Char)
    (caps : List (List Char)) (rest : List Char),
    ts.getLast? = some Tok.dollar → matchToks ts st cs = some (caps, rest) →
    rest = [] := by
  intro ts
  induction ts with
  | nil => intro st cs caps rest hl _; simp at hl
  | cons t ts ih =>
    intro st cs caps rest hl h
    cases hts : ts with
    | nil =>
      subst hts
      simp only [List.getLast?_singleton, Option.some.injEq] at hl
      subst hl
      rw [matchToks] at h
      by_cases he : cs.isEmpty = true
      · rw [if_pos he] at h
        rw [matchToks] at h
        have hcs : cs = [] := by
          cases cs
          · rfl
          · simp [List.isEmpty] at he
        have h2 := (Prod.mk.injEq .. ▸ Option.some.inj h).2
        rw [← h2, hcs]
      · rw [if_neg he] at h
        exact absurd h (by simp)
    | cons t2 ts2 =>
      have hl' : ts.getLast? = some Tok.dollar := by
        rw [hts] at hl ⊢
        rw [List.getLast?_cons_cons] at hl
        exact hl
      cases t with
      | caret =>
        rw [matchToks] at h
        by_cases hst : st = true
        · rw [if_pos hst] at h
          exact ih st cs caps rest hl' h
        · rw [if_neg hst] at h
          exact absurd h (by simp)
      | dollar =>
        rw [matchToks] at h
        by_cases he : cs.isEmpty = true
        · rw [if_pos he] at h
          exact ih st cs caps rest hl' h
        · rw [if_neg he] at h
          exact absurd h (by simp)
      | lit c =>
        cases cs with
        | nil => rw [matchToks] at h; exact absurd h (by simp)
        | cons d ds =>
          rw [matchToks] at h
          by_cases hle : lowerEqb c d = true
          · rw [if_pos hle] at h
            exact ih false ds caps rest hl' h
          · rw [if_neg hle] at h
            exact absurd h (by simp)
      | wsPlus =>
        rw [matchToks] at h
        obtain ⟨k, _, _, hk3⟩ := tryDown_elim _ 1 _ _ h
        exact ih _ _ caps rest hl' hk3
      | wsStar =>
        rw [matchToks] at h
        obtain ⟨k, _, _, hk3⟩ := tryDown_elim _ 0 _ _ h
        exact ih _ _ caps rest hl' hk3
      | group g =>
        rw [matchToks] at h
        obtain ⟨k, _, _, hk3⟩ := tryDown_elim _ 1 _ _ h
        obtain ⟨⟨caps', rest'⟩, hp', hmap⟩ := Option.map_eq_some'.mp hk3
        simp only [Prod.mk.injEq] at hmap
        rw [← hmap.2]
        exact ih _ _ caps' rest' hl' hp'


theorem anchored_getLast (body : List Tok) :
    (Tok.caret :: Tok.wsStar :: body ++ [Tok.wsStar, Tok.dollar]).getLast? =
      some Tok.dollar := by
  rw [show Tok.caret :: Tok.wsStar :: body ++ [Tok.wsStar, Tok.dollar] =
    ((Tok.caret :: Tok.wsStar :: body) ++ [Tok.wsStar]) ++ [Tok.dollar] by simp]
  exact List.getLast?_concat _

theorem anchored_search_characterization (body : List Tok) (cmd : List Char)
    (caps : List (List Char))
    (hjs : jsSearch (Tok.caret :: Tok.wsStar :: body ++ [Tok.wsStar, Tok.dollar])
      cmd = some caps) :
    ∃ p mid q st', cmd = p ++ mid ++ q ∧ p.all jsIsWs = true ∧
      q.all jsIsWs = true ∧ MatchR body st' (mid ++ q) caps q := by
  obtain ⟨rest, hm⟩ := jsSearch_caret _ cmd caps hjs
  have hrest : rest = [] :=
    matchToks_lastDollar _ true cmd caps rest (anchored_getLast body) hm
  rw [hrest] at hm
  have hMR := matchToks_sound _ true cmd caps [] hm
  cases hMR with
  | caret h1 =>
    cases h1 with
    | wsStarZero h2 =>
      obtain ⟨st2, mid2, caps1, caps2, hb, htl, hceq⟩ :=
        MatchR_append_split body [Tok.wsStar, Tok.dollar] true cmd caps [] h2
      obtain ⟨hc2, _, hwq⟩ := MatchR_wsStar_dollar htl
      obtain ⟨mid, hmid⟩ := MatchR_consumed hb
      have hcaps : caps = caps1 := by rw [hceq, hc2, List.append_nil]
      refine ⟨[], mid, mid2, true, ?_, rfl, hwq, ?_⟩
      · rw [List.nil_append]
        exact hmid
      · rw [hcaps, ← hmid]
        exact hb
    | wsStarPos hk1 hk2 hall h2 =>
      rename_i k
      obtain ⟨st2, mid2, caps1, caps2, hb, htl, hceq⟩ :=
        MatchR_append_split body [Tok.wsStar, Tok.dollar] false (cmd.drop k)
          caps [] h2
      obtain ⟨hc2, _, hwq⟩ := MatchR_wsStar_dollar htl
      obtain ⟨mid, hmid⟩ := MatchR_consumed hb
      have hcaps : caps = caps1 := by rw [hceq, hc2, List.append_nil]
      refine ⟨cmd.take k, mid, mid2, false, ?_, hall, hwq, ?_⟩
      · rw [List.append_assoc, ← hmid, List.take_append_drop]
      · rw [hcaps, ← hmid]
        exact hb


/- ===== Small list helper lemmas ===== -/

theorem takeWhile_append_drop_self {α : Type} (p : α → Bool) (l : List α) :
    l.takeWhile p ++ l.drop (l.takeWhile p).length = l := by
  induction l with
  | nil => rfl
  | cons c cs ih =>
    by_cases h : p c = true
    · simp only [List.takeWhile_cons, h, if_pos, List.length_cons,
        List.drop_succ_cons, List.cons_append, List.cons.injEq, true_and]
      exact ih
    · simp only [Bool.not_eq_true] at h
      simp [List.takeWhile_cons, h]

theorem all_takeWhile_self {α : Type} (p : α → Bool) (l : List α) :
    (l.takeWhile p).all p = true := by
  induction l with
  | nil => rfl
  | cons c cs ih =>
    by_cases h : p c = true
    · simp [List.takeWhile_cons, h, ih]
    · simp only [Bool.not_eq_true] at h
      simp [List.takeWhile_cons, h]

theorem takeWhile_append_of_all {α : Type} (p : α → Bool) {w : List α}
    (t : List α) (hw : w.all p = true) :
    (w ++ t).takeWhile p = w ++ t.takeWhile p := by
  induction w with
  | nil => rfl
  | cons c cs ih =>
    simp only [List.all_cons, Bool.and_eq_true] at hw
    simp [List.takeWhile_cons, hw.1, ih hw.2]

/- ===== C8 ===== -/

/-- C8.  The claim says compiling an utterance template escapes the
literal `[`, `]`, `(`, `)` characters after misspelling substitution
and whitespace collapsing, so the compiled pattern treats them as
literal characters.  The code is a slip against its own documentation:
`replaceBracesForRegexp` is documented "Escape braces that would cause
a problem with regular expressions", but it discards the result of its
`.replace` chain and returns the utterance unchanged, for every input;
consequently the compiled pattern of the template `pick [a]` still
contains the unescaped `[a]`, which a regular expression reads as a
character class rather than the literal text. -/
theorem c8_brace_escaping_is_noop :
    (∀ u : List Char, replaceBracesForRegexp u = u) ∧
    (mkMatcher noMistakes [] { intent := "BRACKETS", utterances := [cl "pick [a]"] }
        (cl "pick [a]")).map (fun m => m.pattern) =
      some (cl "^\\s*pick\\s+[a]\\s*$") :=
  ⟨fun _ => rfl, by decide⟩

/- ===== C6 ===== -/

/-- C6.  Slot evaluation fails on a function-matcher result of
`undefined` or the empty string but accepts the value `0`; the `NUMBER`
slot type's matcher transforms `"9,000.01"` into the number `9000.01`
and `"0"` into `0`, and both results pass the slot-failure test. -/
theorem c6_zero_is_valid_slot_value :
    (∀ (slotTypes : SlotTable) (sl : IntentSlot) (sls : List IntentSlot)
        (text : List Char) (texts : List (List Char))
        (acc : List (String × JSVal)),
        checkSlotMatch slotTypes text sl.type = none →
        evalSlots slotTypes (sl :: sls) (text :: texts) acc = none) ∧
    (∀ (slotTypes : SlotTable) (sl : IntentSlot) (sls : List IntentSlot)
        (text : List Char) (texts : List (List Char))
        (acc : List (String × JSVal)),
        checkSlotMatch slotTypes text sl.type = some (JSVal.str []) →
        evalSlots slotTypes (sl :: sls) (text :: texts) acc = none) ∧
    (∀ (slotTypes : SlotTable) (sl : IntentSlot) (sls : List IntentSlot)
        (text : List Char) (texts : List (List Char))
        (acc : List (String × JSVal)),
        checkSlotMatch slotTypes text sl.type = some (JSVal.num 0) →
        evalSlots slotTypes (sl :: sls) (text :: texts) acc =
          evalSlots slotTypes sls texts (setKey acc sl.name (JSVal.num 0))) ∧
    NUMBER.matcher = SlotMatcherSpec.funcSpec numberMatcher ∧
    numberMatcher (cl "9,000.01") = some (JSVal.num (mkRat 900001 100)) ∧
    numberMatcher (cl "0") = some (JSVal.num 0) ∧
    mkRat 900001 100 = (9000.01 : ℚ) := by
  refine ⟨?_, ?_, ?_, rfl, by decide, by decide, ?_⟩
  · intro slotTypes sl sls text texts acc h
    simp [evalSlots, h]
  · intro slotTypes sl sls text texts acc h
    simp [evalSlots, h]
  · intro slotTypes sl sls text texts acc h
    simp [evalSlots, h]
  · rw [Rat.mkRat_eq_divInt, Rat.divInt_eq_div]
    norm_num

/-- Witness for C6: with the `NUMBER` slot type, the captured text `x`
fails, while `0` is bound as the number `0` and evaluation proceeds. -/
theorem c6_witness :
    evalSlots [("NUMBER", NUMBER)] [⟨"N", "NUMBER"⟩] [cl "x"] [] = none ∧
    evalSlots [("NUMBER", NUMBER)] [⟨"N", "NUMBER"⟩] [cl "0"] [] =
      some [("N", JSVal.num 0)] := by
  constructor
  · exact c6_zero_is_valid_slot_value.1 _ ⟨"N", "NUMBER"⟩ [] (cl "x") [] []
      (by decide)
  · exact (c6_zero_is_valid_slot_value.2.2.1 _ ⟨"N", "NUMBER"⟩ [] (cl "0") [] []
      (by decide)).trans (by decide)

/- ===== C7 ===== -/

/-- C7.  `removeSlotType` throws while any registered intent's slot
list references the slot type, leaving the slot-type table (indeed the
whole state) unchanged; with no referencing intent it removes the type,
after which the name no longer resolves and a subsequent `addSlotType`
with the same name succeeds instead of hitting the duplicate-name
error. -/
theorem c7_remove_slot_type :
    (∀ (s : NLCState) (name : String) (intent : Intent),
        intent ∈ s.intents →
        (intent.slots.map (fun sl => sl.type)).contains name = true →
        (removeSlotType s name).1 = s ∧ (removeSlotType s name).2.isSome = true) ∧
    (∀ (s : NLCState) (name : String),
        (∀ intent ∈ s.intents,
          (intent.slots.map (fun sl => sl.type)).contains name = false) →
        (removeSlotType s name).2 = none ∧
        lookupKey (removeSlotType s name).1.slotTypes name = none ∧
        ∀ st : SlotType, st.type = name →
          (addSlotType (removeSlotType s name).1 st).isSome = true) := by
  constructor
  · intro s name intent hmem hcont
    have hfind : (s.intents.find? (fun intent =>
        (intent.slots.map (fun sl => sl.type)).contains name)).isSome := by
      rw [List.find?_isSome]
      exact ⟨intent, hmem, hcont⟩
    simp only [removeSlotType]
    cases hf : s.intents.find? (fun intent =>
        (intent.slots.map (fun sl => sl.type)).contains name) with
    | none => rw [hf] at hfind; simp at hfind
    | some i => simp
  · intro s name hnone
    have hfind : s.intents.find? (fun intent =>
        (intent.slots.map (fun sl => sl.type)).contains name) = none := by
      rw [List.find?_eq_none]
      intro i hi
      simpa using hnone i hi
    have h2 : removeSlotType s name =
        ({ s with slotTypes := s.slotTypes.filter (fun kv => kv.1 ≠ name) },
          none) := by
      simp only [removeSlotType, hfind]
    rw [h2]
    refine ⟨rfl, lookupKey_filter_ne_self _ _, ?_⟩
    intro st hst
    simp only [addSlotType, hst, lookupKey_filter_ne_self]
    cases st.matcher <;> simp

/- ===== C3 ===== -/

/-- C3 (counterexample).  The claim says that when no compiled matcher
succeeds, `handleCommand` falls back to comparing the cleaned command
with the registered intent names and that a command equal to an intent
name matches that intent with no slots.  In `helloState` the intent
`hello` is registered (with utterance `greet me` only) and the command
`hello` equals that intent name and is unchanged by cleaning, yet
`handleCommand` rejects with no match and fires the not-found callback
instead of resolving with the `hello` intent. -/
theorem c3_counterexample :
    helloState.intents.map (fun i => i.intent) = ["hello"] ∧
    cleanCommand (cl "hello") = cl "hello" ∧
    (handleCommand helloState none (cl "hello") none).outcome =
      HCOutcome.rejectedNoMatch ∧
    (handleCommand helloState none (cl "hello") none).trace =
      [Event.notFoundCalled] := by
  refine ⟨by decide, by decide, by decide, by decide⟩

/-- C3 (amended).  There is no intent-name fallback: when no compiled
matcher succeeds on the cleaned command and the user has no active
question, `handleCommand` invokes the not-found callback and rejects,
regardless of whether the command equals a registered intent's name. -/
theorem c3_no_keyword_fallback :
    ∀ (s : NLCState) (data : Option JSVal) (command : List Char)
      (userId : Option String),
      scanFound s.slotTypes (cleanCommand command) s.matchers = none →
      getActiveQuestion s userId = none →
      handleCommand s data command userId =
        ⟨(runCbAction s s.notFoundCb).1, HCOutcome.rejectedNoMatch,
          Event.notFoundCalled :: (runCbAction s s.notFoundCb).2⟩ := by
  intro s data command userId hscan hq
  simp only [handleCommand,
    scanMatchers_of_found_none s.slotTypes data (cleanCommand command)
      s.matchers s hscan, hq, List.nil_append]

/-- Witness for C3's amended theorem at the counterexample state. -/
theorem c3_witness :
    handleCommand helloState none (cl "hello") none =
      ⟨helloState, HCOutcome.rejectedNoMatch, [Event.notFoundCalled]⟩ :=
  c3_no_keyword_fallback helloState none (cl "hello") none
    (by decide) (by decide)

/- ===== C10 ===== -/

/-- C10 (counterexample).  The claim says `removeUtterance` leaves
matchers of every other intent registered, including matchers whose
source utterance equals the removed text.  In `twoIntentState` the
intents `A` and `B` each have a matcher compiled from the utterance
`hello`; removing `hello` from `A` also removes `B`'s matcher, because
the code rejects matchers by original utterance text alone. -/
theorem c10_counterexample :
    twoIntentState.matchers.map (fun m => m.intent.intent) = ["A", "B"] ∧
    (removeUtterance twoIntentState "A" (cl "hello")).2 = true ∧
    (removeUtterance twoIntentState "A" (cl "hello")).1.matchers.map
      (fun m => m.intent.intent) = [] := by
  refine ⟨by decide, by decide, by decide⟩

/-- C10 (amended).  A successful `removeUtterance(intentName, utt)`
leaves every other intent's record (including its utterance list)
unchanged, and filters the matcher list by original utterance text
alone, so matchers of other intents survive exactly when their source
utterance differs from the removed text; an unsuccessful call changes
nothing. -/
theorem c10_remove_utterance_frame :
    ∀ (s : NLCState) (intentName : String) (utt : List Char),
      ((removeUtterance s intentName utt).2 = true →
        (removeUtterance s intentName utt).1.matchers =
          s.matchers.filter (fun m => m.originalUtterance ≠ utt) ∧
        ∀ i ∈ s.intents, i.intent ≠ intentName →
          i ∈ (removeUtterance s intentName utt).1.intents) ∧
      ((removeUtterance s intentName utt).2 = false →
        (removeUtterance s intentName utt).1 = s) := by
  intro s intentName utt
  cases hf : s.intents.find? (fun intent => intent.intent = intentName) with
  | none =>
    have hres : removeUtterance s intentName utt = (s, false) := by
      simp only [removeUtterance, hf]
    rw [hres]
    exact ⟨fun h => by simp at h, fun _ => rfl⟩
  | some intent =>
    by_cases hc : intent.utterances.contains utt = true
    · have hres : removeUtterance s intentName utt =
          ({ s with
              intents := s.intents.map (fun i =>
                if i.intent = intentName then
                  { i with
                    utterances := i.utterances.filter (fun u => u ≠ utt) }
                else i)
              matchers := s.matchers.filter
                (fun m => m.originalUtterance ≠ utt) }, true) := by
        simp only [removeUtterance, hf, hc, if_pos]
      rw [hres]
      refine ⟨fun _ => ⟨rfl, ?_⟩, fun h => by simp at h⟩
      intro i hi hne
      have heq : (fun j : Intent =>
          if j.intent = intentName then
            { j with utterances := j.utterances.filter (fun u => u ≠ utt) }
          else j) i = i := by
        simp [hne]
      exact heq ▸ List.mem_map_of_mem _ hi
    · simp only [Bool.not_eq_true] at hc
      have hres : removeUtterance s intentName utt = (s, false) := by
        simp only [removeUtterance, hf, hc]
        simp only [Bool.false_eq_true, if_false]
      rw [hres]
      exact ⟨fun h => by simp at h, fun _ => rfl⟩

/-- Witness for C10's amended theorem at the counterexample state:
the other intent `B` keeps its (unchanged) record, and the matcher
survival rule is exactly the text filter. -/
theorem c10_witness :
    (removeUtterance twoIntentState "A" (cl "hello")).1.matchers =
      twoIntentState.matchers.filter (fun m => m.originalUtterance ≠ cl "hello") ∧
    { intent := "B", utterances := [cl "hello"] } ∈
      (removeUtterance twoIntentState "A" (cl "hello")).1.intents := by
  have h := (c10_remove_utterance_frame twoIntentState "A" (cl "hello")).1
    (by decide)
  exact ⟨h.1, h.2 _ (by decide) (by decide)⟩

/-- Witness for C7: removing `COLOR` throws while `colorIntent` relies
on it (state unchanged), succeeds on a state without that intent, and
the same name can then be re-added. -/
theorem c7_witness :
    ((removeSlotType usesColorState "COLOR").1 = usesColorState ∧
      (removeSlotType usesColorState "COLOR").2.isSome = true) ∧
    (removeSlotType colorState "COLOR").2 = none ∧
    (addSlotType (removeSlotType colorState "COLOR").1 colorType).isSome = true := by
  refine ⟨?_, ?_, ?_⟩
  · exact c7_remove_slot_type.1 usesColorState "COLOR" colorIntent
      (by decide) (by decide)
  · exact ((c7_remove_slot_type.2 colorState "COLOR") (by decide)).1
  · exact ((c7_remove_slot_type.2 colorState "COLOR") (by decide)).2.2 colorType rfl

/- ===== C1 ===== -/

/-- C1 (counterexample).  The claim says a caller-supplied context
datum, when present, is prepended as the first callback argument.  The
source guards the prepend with JavaScript truthiness (`if (data)`), so
calling `handleCommand(0, "test")` — a present datum `0` — matches the
`TEST` intent but invokes its callback without the datum. -/
theorem c1_counterexample :
    (handleCommand testState (some (JSVal.num 0)) (cl "test") none).outcome =
      HCOutcome.fulfilled ⟨"TEST", []⟩ ∧
    (handleCommand testState (some (JSVal.num 0)) (cl "test") none).trace =
      [Event.invoked "TEST" []] :=
  ⟨by decide, by decide⟩

/-- C1 (amended).  A matched intent's callback receives the slot values
in the order the slots were declared on the intent, not the order their
placeholders appear in the utterance (an utterance with no placeholders
yields an empty value list), and a caller-supplied context datum is
prepended as the first argument when it is present *and truthy*. -/
theorem c1_declared_order_and_datum :
    (∀ (m : Matcher) (slotTypes : SlotTable) (cmd : List Char)
        (fl : List SlotFulfilment),
        m.check slotTypes cmd = some fl →
        fl.map (fun f => f.name) =
          if m.slotMapping.isEmpty then []
          else m.intent.slots.map (fun sl => sl.name)) ∧
    (∀ (slotTypes : SlotTable) (data : Option JSVal) (cmd : List Char)
        (m : Matcher) (rest : List Matcher) (s : NLCState)
        (fl : List SlotFulfilment),
        m.check slotTypes cmd = some fl →
        ∃ evs, (scanMatchers slotTypes data cmd (m :: rest) s).2.2 =
          Event.invoked m.intent.intent
            ((match data with
              | some d => if jsTruthy d then [some d] else []
              | none => []) ++ fl.map (fun f => f.value)) :: evs) := by
  constructor
  · intro m slotTypes cmd fl h
    simp only [Matcher.check] at h
    split at h
    · exact absurd h (by simp)
    · split at h
      · exact absurd h (by simp)
      · split at h
        · rename_i he
          cases h
          simp [he]
        · rename_i he
          split at h
          · exact absurd h (by simp)
          · cases h
            simp only [Bool.not_eq_true] at he
            simp [he, getOrderedSlots, List.map_map, Function.comp]
  · intro slotTypes data cmd m rest s fl h
    simp only [scanMatchers, h]
    have hargs :
        (match data with
          | some d =>
            if jsTruthy d then some d :: fl.map (fun f => f.value)
            else fl.map (fun f => f.value)
          | none => fl.map (fun f => f.value)) =
        (match data with
          | some d => if jsTruthy d then [some d] else []
          | none => []) ++ fl.map (fun f => f.value) := by
      cases data with
      | none => simp
      | some d => by_cases ht : jsTruthy d = true <;> simp [ht]
    by_cases hb : isBareSlotUtterance m.originalUtterance = true
    · rw [hb]
      simp only [if_pos]
      refine ⟨(runCbAction s m.intent.cb).2 ++
        (scanMatchers slotTypes data cmd rest
          (runCbAction s m.intent.cb).1).2.2, ?_⟩
      rw [hargs]
      simp
    · simp only [Bool.not_eq_true] at hb
      rw [hb]
      simp only [Bool.false_eq_true, if_false]
      exact ⟨(runCbAction s m.intent.cb).2, by rw [hargs]⟩

/-- Witness for C1's amended theorem: the matcher of `{B} then {A}`
captures `B` before `A`, yet the fulfilments and the callback arguments
follow the declared order `[A, B]`, with a truthy datum prepended. -/
theorem c1_witness :
    abMatcher.slotMapping.map (fun sl => sl.name) = ["B", "A"] ∧
    abMatcher.check stringState.slotTypes (cl "x then y") =
      some [⟨"A", some (JSVal.str (cl "y"))⟩, ⟨"B", some (JSVal.str (cl "x"))⟩] ∧
    [(⟨"A", some (JSVal.str (cl "y"))⟩ : SlotFulfilment),
        ⟨"B", some (JSVal.str (cl "x"))⟩].map (fun f => f.name) = ["A", "B"] ∧
    (∃ evs,
      (scanMatchers stringState.slotTypes (some (JSVal.str (cl "d")))
          (cl "x then y") [abMatcher] stringState).2.2 =
        Event.invoked "AB"
          [some (JSVal.str (cl "d")), some (JSVal.str (cl "y")),
            some (JSVal.str (cl "x"))] :: evs) := by
  refine ⟨by decide, by decide, ?_, ?_⟩
  · exact (c1_declared_order_and_datum.1 abMatcher stringState.slotTypes
      (cl "x then y")
      [⟨"A", some (JSVal.str (cl "y"))⟩, ⟨"B", some (JSVal.str (cl "x"))⟩]
      (by decide)).trans (by decide)
  · exact c1_declared_order_and_datum.2 stringState.slotTypes
      (some (JSVal.str (cl "d"))) (cl "x then y") abMatcher [] stringState
      [⟨"A", some (JSVal.str (cl "y"))⟩, ⟨"B", some (JSVal.str (cl "x"))⟩]
      (by decide)

/- ===== C4 ===== -/

/-- C4.  The dispatcher tries the compiled matchers in registration
order (`registerIntent` appends one matcher per utterance, in order),
the scan's found match is governed by first-match-wins except that a
matcher whose original utterance is a single bare slot placeholder
(`/^{(\w+?)}$/`) does not end the scan and a later successful matcher
replaces it, and a found match is what `handleCommand` resolves
with. -/
theorem c4_scan_order :
    (∀ (slotTypes : SlotTable) (data : Option JSVal) (cmd : List Char)
        (ms : List Matcher) (s : NLCState),
        (scanMatchers slotTypes data cmd ms s).2.1 = scanFound slotTypes cmd ms) ∧
    (∀ (mist : List Char → Option (List Char)) (s : NLCState) (intent : Intent)
        (s' : NLCState),
        registerIntent mist s intent = some (s', true) →
        ∃ ms, intent.utterances.mapM (mkMatcher mist s.slotTypes intent) =
            some ms ∧
          s'.matchers = s.matchers ++ ms) ∧
    (∀ (s : NLCState) (data : Option JSVal) (command : List Char)
        (userId : Option String) (f : IntentFulfilment),
        scanFound s.slotTypes (cleanCommand command) s.matchers = some f →
        (handleCommand s data command userId).outcome = HCOutcome.fulfilled f) ∧
    (∀ u, isBareSlotUtterance u = true ↔
      ∃ w, w ≠ [] ∧ w.all jsIsWord = true ∧ u = '{' :: (w ++ ['}'])) := by
  refine ⟨scanMatchers_found, ?_, ?_, ?_⟩
  · intro mist s intent s' h
    simp only [registerIntent] at h
    by_cases hd : doesIntentExist s intent.intent = true
    · rw [hd] at h
      simp only [if_pos, Option.some.injEq, Prod.mk.injEq] at h
      exact absurd h.2 (by simp)
    · simp only [Bool.not_eq_true] at hd
      rw [hd] at h
      simp only [Bool.false_eq_true, if_false] at h
      cases hm : intent.utterances.mapM (mkMatcher mist s.slotTypes intent) with
      | none => rw [hm] at h; exact absurd h (by simp)
      | some ms =>
        rw [hm] at h
        simp only [Option.some.injEq, Prod.mk.injEq] at h
        exact ⟨ms, rfl, by rw [← h.1]⟩
  · intro s data command userId f h
    simp only [handleCommand]
    have := scanMatchers_found s.slotTypes data (cleanCommand command)
      s.matchers s
    cases hr : (scanMatchers s.slotTypes data (cleanCommand command)
        s.matchers s).2.1 with
    | none => rw [hr] at this; rw [← this] at h; exact absurd h (by simp)
    | some g =>
      rw [hr] at this
      rw [← this] at h
      cases h
      simp [hr]
  · intro u
    constructor
    · intro h
      cases u with
      | nil => exact absurd h (by simp [isBareSlotUtterance])
      | cons c rest =>
        simp only [isBareSlotUtterance, Bool.and_eq_true, decide_eq_true_eq,
          Bool.not_eq_true'] at h
        obtain ⟨hc, hne, hdrop⟩ := h
        subst hc
        refine ⟨rest.takeWhile jsIsWord, ?_, all_takeWhile_self _ _, ?_⟩
        · intro hnil
          rw [hnil] at hne
          simp at hne
        · have hsplit := takeWhile_append_drop_self jsIsWord rest
          rw [hdrop] at hsplit
          rw [hsplit]
    · intro h
      obtain ⟨w, hne, hall, rfl⟩ := h
      simp only [isBareSlotUtterance]
      have ht : (w ++ ['}']).takeWhile jsIsWord = w := by
        rw [takeWhile_append_of_all jsIsWord ['}'] hall]
        simp [List.takeWhile_cons, jsIsWord]
      rw [ht]
      simp [List.drop_left, hne]

/-- Witness for C4 at the bare-slot scenario: in `bareState` the
catch-all `{Slot}` utterance of `CATCH` is registered before the more
specific `test` utterance of `SPEC`, yet the scan's found match — and
what `handleCommand` resolves with — is `SPEC`. -/
theorem c4_witness :
    (scanMatchers bareState.slotTypes none (cl "test") bareState.matchers
        bareState).2.1 =
      scanFound bareState.slotTypes (cl "test") bareState.matchers ∧
    scanFound bareState.slotTypes (cl "test") bareState.matchers =
      some ⟨"SPEC", []⟩ ∧
    (handleCommand bareState none (cl "test") none).outcome =
      HCOutcome.fulfilled ⟨"SPEC", []⟩ ∧
    isBareSlotUtterance (cl "{Slot}") = true := by
  refine ⟨c4_scan_order.1 bareState.slotTypes none (cl "test")
      bareState.matchers bareState, by decide, ?_, by decide⟩
  exact c4_scan_order.2.2.1 bareState none (cl "test") none ⟨"SPEC", []⟩
    (by decide)

/- ===== C2 ===== -/

/-- C2 (counterexample).  The claim says that for every user with an
active question, the *next* call to `handleCommand` for that user
clears the active question before the answer is evaluated.  The source
tries the normal matchers first, so in `questionActiveState` — where
`Q1` is active for the anonymous user and the intent `TEST` matches the
command `test` — the call resolves with `TEST` and leaves `Q1` active:
nothing is cleared and no answer is evaluated. -/
theorem c2_counterexample :
    (getActiveQuestion questionActiveState none).map (fun q => q.name) =
      some "Q1" ∧
    (handleCommand questionActiveState none (cl "test") none).outcome =
      HCOutcome.fulfilled ⟨"TEST", []⟩ ∧
    (getActiveQuestion (handleCommand questionActiveState none (cl "test")
        none).state none).map (fun q => q.name) = some "Q1" ∧
    (handleCommand questionActiveState none (cl "test") none).trace =
      [Event.invoked "TEST" []] :=
  ⟨by decide, by decide, by decide, by decide⟩

/-- C2 (amended).  For every user key with an active question, a call
to `handleCommand` for that user *whose command no regular matcher
matches* clears the active question before the answer is evaluated and
before any callback is invoked: the run's trace begins with the
clearing event (a failed normal scan emits no events), and when the
question's single sub-matcher matches and its success callback asks a
registered question, that newly asked question is the active one in the
final state. -/
theorem c2_question_cleared_before_answer :
    ∀ (s : NLCState) (data : Option JSVal) (command : List Char)
      (userId : Option String) (q : Question),
      getActiveQuestion s userId = some q →
      scanFound s.slotTypes (cleanCommand command) s.matchers = none →
      (∃ evs, (handleCommand s data command userId).trace =
          Event.clearedQuestion (userKey userId) :: evs) ∧
      (∀ (m : Matcher) (uid2 : Option String) (q2name : String)
          (q2 : Question),
          q.subMatchers = [m] →
          m.intent.cb = CbAction.ask uid2 q2name →
          lookupKey s.questions q2name = some q2 →
          (m.check s.slotTypes (cleanCommand (cleanCommand command))).isSome =
            true →
          getActiveQuestion (handleCommand s data command userId).state uid2 =
              some q2 ∧
            (handleCommand s data command userId).outcome =
              HCOutcome.questionResolved q.name) := by
  intro s data command userId q hact hscan
  have hrun : handleCommand s data command userId =
      handleQuestionAnswer s q data (cleanCommand command) userId := by
    simp only [handleCommand,
      scanMatchers_of_found_none s.slotTypes data (cleanCommand command)
        s.matchers s hscan, hact]
  constructor
  · rw [hrun]
    simp only [handleQuestionAnswer]
    split
    · exact ⟨_, rfl⟩
    · exact ⟨_, rfl⟩
  · intro m uid2 q2name q2 hsub hcb hq2 hcheck
    obtain ⟨fl, hfl⟩ := Option.isSome_iff_exists.mp hcheck
    have hq1 : lookupKey (finishQuestion s userId).questions q2name = some q2 :=
      hq2
    have hrc : runCbAction (finishQuestion s userId) m.intent.cb =
        (setActiveQuestion (finishQuestion s userId) uid2 (some q2),
          [Event.askSet (userKey uid2) q2name]) := by
      rw [hcb]
      simp only [runCbAction, hq1]
    have hmain :
        (scanMatchers s.slotTypes (answerData data userId)
            (cleanCommand (cleanCommand command)) q.subMatchers
            (finishQuestion s userId)).1 =
          setActiveQuestion (finishQuestion s userId) uid2 (some q2) ∧
        (scanMatchers s.slotTypes (answerData data userId)
            (cleanCommand (cleanCommand command)) q.subMatchers
            (finishQuestion s userId)).2.1 =
          some ⟨m.intent.intent, fl⟩ := by
      rw [hsub]
      simp only [scanMatchers, hfl, hrc]
      by_cases hb : isBareSlotUtterance m.originalUtterance = true
      · rw [hb]
        simp [scanMatchers]
      · simp only [Bool.not_eq_true] at hb
        rw [hb]
        simp
    rw [hrun]
    simp only [handleQuestionAnswer]
    rw [hmain.2]
    refine ⟨?_, rfl⟩
    show getActiveQuestion
      (scanMatchers s.slotTypes (answerData data userId)
        (cleanCommand (cleanCommand command)) q.subMatchers
        (finishQuestion s userId)).1 uid2 = some q2
    rw [hmain.1]
    simp only [getActiveQuestion, setActiveQuestion, lookupKey_setKey_self,
      Option.bind, id_eq]

/-- Witness for C2's amended theorem: in `questionActiveState` the
command `blue` matches no regular intent, so the active `Q1` is cleared
first (the trace begins with the clearing event), the answer resolves
`Q1`, and the success callback's `ask` makes `Q2` the active
question. -/
theorem c2_witness :
    (∃ evs, (handleCommand questionActiveState none (cl "blue") none).trace =
        Event.clearedQuestion (userKey none) :: evs) ∧
    getActiveQuestion (handleCommand questionActiveState none (cl "blue")
        none).state none = some exampleQ2 ∧
    (handleCommand questionActiveState none (cl "blue") none).outcome =
      HCOutcome.questionResolved "Q1" := by
  have h := c2_question_cleared_before_answer questionActiveState none
    (cl "blue") none exampleQ1 (by decide) (by decide)
  have h2 := h.2 exampleQ1Matcher none "Q2" exampleQ2 (by decide) (by decide)
    (by decide) (by decide)
  exact ⟨h.1, h2.1, h2.2⟩

/-- C5: for matchers whose slots use only string or string-array slot
types, matching is invariant under changing the letter case of the
command: (a) `addSlotType` stores string and string-set matcher specs
lower-cased, (b) a successful string/string-set slot check returns the
original (uncased) captured fragment, and (c) two commands that agree
up to letter case produce `check` results that are both misses or both
hits, with fulfilments that agree up to the case of the returned
fragments. -/
theorem c5_case_insensitive_matching (slotTypes : SlotTable) (m : Matcher)
    (hsl : ∀ sl ∈ m.slotMapping, ∃ st', lookupKey slotTypes sl.type = some st' ∧
      isStrOrList st'.matcher = true)
    (c1 c2 : List Char) (hc : lowerStr c1 = lowerStr c2) :
    (∀ (s : NLCState) (st : SlotType) (s' : NLCState),
        addSlotType s st = some s' →
        (∀ str, st.matcher = .strSpec str →
          lookupKey s'.slotTypes st.type =
            some { st with matcher := .strSpec (lowerStr str) }) ∧
        (∀ ss, st.matcher = .listSpec ss →
          lookupKey s'.slotTypes st.type =
            some { st with matcher := .listSpec (ss.map lowerStr) })) ∧
    (∀ (tn : String) (st' : SlotType) (text : List Char) (v : JSVal),
        lookupKey slotTypes tn = some st' → isStrOrList st'.matcher = true →
        checkSlotMatch slotTypes text tn = some v → v = .str text) ∧
    ((m.check slotTypes c1).isSome = (m.check slotTypes c2).isSome ∧
      (m.check slotTypes c1).map (List.map fulLower) =
        (m.check slotTypes c2).map (List.map fulLower)) := by
  refine ⟨?_, ?_, ?_, ?_⟩
  · intro s st s' ha
    obtain ⟨ty, mm, bm⟩ := st
    constructor
    · intro str hm
      have hm' : mm = SlotMatcherSpec.strSpec str := hm
      subst hm'
      simp only [addSlotType] at ha
      cases hlk : lookupKey s.slotTypes ty with
      | some v =>
        rw [hlk] at ha
        exact absurd (show (none : Option NLCState) = some s' from ha)
          (by simp)
      | none =>
        rw [hlk] at ha
        have ha' : some { s with slotTypes := setKey s.slotTypes ty ({ type := ty, matcher := SlotMatcherSpec.strSpec (lowerStr str), baseMatcher := bm }) } = some s' := ha
        rw [← Option.some.inj ha']
        exact lookupKey_setKey_self s.slotTypes ty _
    · intro ss hm
      have hm' : mm = SlotMatcherSpec.listSpec ss := hm
      subst hm'
      simp only [addSlotType] at ha
      cases hlk : lookupKey s.slotTypes ty with
      | some v =>
        rw [hlk] at ha
        exact absurd (show (none : Option NLCState) = some s' from ha)
          (by simp)
      | none =>
        rw [hlk] at ha
        have ha' : some { s with slotTypes := setKey s.slotTypes ty ({ type := ty, matcher := SlotMatcherSpec.listSpec (ss.map lowerStr), baseMatcher := bm }) } = some s' := ha
        rw [← Option.some.inj ha']
        exact lookupKey_setKey_self s.slotTypes ty _
  · intro tn st' text v hlk hso h
    exact checkSlotMatch_strOrList_value slotTypes tn st' text v hlk hso h
  · have hmap := check_ci slotTypes m hsl c1 c2 hc
    have := congrArg Option.isSome hmap
    simpa using this
  · exact check_ci slotTypes m hsl c1 c2 hc

/-- Witness for C5: `colorMatcher` (utterance `{Color} please`, slot
type `COLOR` = the string `Red`) matches `RED please` and `red Please`
identically up to case, and the fulfilment returns the original
fragment `RED`. -/
theorem c5_witness :
    lowerStr (cl "RED please") = lowerStr (cl "red Please") ∧
    ((colorMatcher.check colorState.slotTypes (cl "RED please")).isSome =
        (colorMatcher.check colorState.slotTypes (cl "red Please")).isSome ∧
      (colorMatcher.check colorState.slotTypes (cl "RED please")).map
          (List.map fulLower) =
        (colorMatcher.check colorState.slotTypes (cl "red Please")).map
          (List.map fulLower)) ∧
    colorMatcher.check colorState.slotTypes (cl "RED please") =
      some [⟨"Color", some (.str (cl "RED"))⟩] := by
  have hsl : ∀ sl ∈ colorMatcher.slotMapping, ∃ st',
      lookupKey colorState.slotTypes sl.type = some st' ∧
      isStrOrList st'.matcher = true := by
    intro sl hm
    have hsm : colorMatcher.slotMapping = [⟨"Color", "COLOR"⟩] := by decide
    rw [hsm] at hm
    simp only [List.mem_singleton] at hm
    subst hm
    exact ⟨{ type := "COLOR", matcher := .strSpec (cl "red") }, rfl, rfl⟩
  have h := c5_case_insensitive_matching colorState.slotTypes colorMatcher
    hsl (cl "RED please") (cl "red Please") (by decide)
  exact ⟨by decide, h.2.2, by decide⟩

/-- C9: every compiled matcher is anchored at both ends: (a) the
compiled pattern is the processed utterance wrapped in `^\s*` and
`\s*$`; (b) any anchored pattern string parses to a token list of the
form `caret, wsStar, body, wsStar, dollar`; (c) for a pattern starting
with `^` and ending with `$`, a successful search is a match at
position 0 that consumes the entire command; (d) any command matched by
an anchored token list decomposes as leading whitespace, a region
matched exactly by the body, and trailing whitespace — so extra
non-whitespace text before or after the pattern's region defeats the
match. -/
theorem c9_matchers_anchored :
    (∀ (mist : List Char → Option (List Char)) (slotTypes : SlotTable)
        (intent : Intent) (u : List Char) (m : Matcher),
        mkMatcher mist slotTypes intent u = some m →
        ∃ core, m.pattern = cl "^\\s*" ++ core ++ cl "\\s*$") ∧
    (∀ (core : List Char) (ts : List Tok),
        parseToks (cl "^\\s*" ++ core ++ cl "\\s*$") = some ts →
        ∃ body,
          ts = Tok.caret :: Tok.wsStar :: body ++ [Tok.wsStar, Tok.dollar]) ∧
    (∀ (ts : List Tok) (cmd : List Char) (caps : List (List Char)),
        ts.getLast? = some Tok.dollar →
        jsSearch (Tok.caret :: ts) cmd = some caps →
        matchToks (Tok.caret :: ts) true cmd = some (caps, [])) ∧
    (∀ (body : List Tok) (cmd : List Char) (caps : List (List Char)),
        jsSearch (Tok.caret :: Tok.wsStar :: body ++ [Tok.wsStar, Tok.dollar])
          cmd = some caps →
        ∃ p mid q st', cmd = p ++ mid ++ q ∧ p.all jsIsWs = true ∧
          q.all jsIsWs = true ∧ MatchR body st' (mid ++ q) caps q) := by
  refine ⟨?_, ?_, ?_, ?_⟩
  · intro mist slotTypes intent u m hm
    simp only [mkMatcher] at hm
    obtain ⟨r, _, hr2⟩ := Option.map_eq_some'.mp hm
    refine ⟨replaceBracesForRegexp (replaceSpacesForRegexp
      (replaceCommonMispellings mist r.1)), ?_⟩
    rw [← hr2]
  · intro core ts h
    rw [List.append_assoc, parseToks_anchor_head] at h
    obtain ⟨ts', hp', hts⟩ := Option.map_eq_some'.mp h
    obtain ⟨body, hb⟩ :=
      parse_tail_shape core.length core (Nat.le_refl _) ts' hp'
    subst hts
    exact ⟨body, by rw [hb]; rfl⟩
  · intro ts cmd caps hlast hjs
    obtain ⟨rest, hm⟩ := jsSearch_caret ts cmd caps hjs
    have hlast' : (Tok.caret :: ts).getLast? = some Tok.dollar := by
      cases ts with
      | nil => simp at hlast
      | cons t2 ts2 => rw [List.getLast?_cons_cons]; exact hlast
    have hrest : rest = [] :=
      matchToks_lastDollar _ true cmd caps rest hlast' hm
    rw [hrest] at hm
    exact hm
  · intro body cmd caps hjs
    exact anchored_search_characterization body cmd caps hjs

/-- Witness for C9: the compiled matcher of the slotless utterance
`test` has the anchored pattern `^\s*test\s*$`; it parses to an
anchored token list; the command with surrounding whitespace
`" test  "` matches at position 0 consuming everything and decomposes
as whitespace around the literal body; the commands `x test` and
`test x`, which carry extra non-whitespace text, do not match. -/
theorem c9_witness :
    (∃ core, testMatcher.pattern = cl "^\\s*" ++ core ++ cl "\\s*$") ∧
    (∃ body, parseToks testMatcher.pattern =
        some (Tok.caret :: Tok.wsStar :: body ++ [Tok.wsStar, Tok.dollar])) ∧
    matchToks (Tok.caret :: Tok.wsStar ::
        [Tok.lit 't', Tok.lit 'e', Tok.lit 's', Tok.lit 't'] ++
        [Tok.wsStar, Tok.dollar]) true (cl " test  ") = some ([], []) ∧
    (∃ p mid q st', cl " test  " = p ++ mid ++ q ∧ p.all jsIsWs = true ∧
        q.all jsIsWs = true ∧
        MatchR [Tok.lit 't', Tok.lit 'e', Tok.lit 's', Tok.lit 't'] st'
          (mid ++ q) [] q) ∧
    testMatcher.check stringState.slotTypes (cl "x test") = none ∧
    testMatcher.check stringState.slotTypes (cl "test x") = none := by
  have h := c9_matchers_anchored
  refine ⟨?_, ?_, ?_, ?_, by decide, by decide⟩
  · exact h.1 noMistakes stringState.slotTypes testIntent (cl "test")
      testMatcher (by decide)
  · have hp : testMatcher.pattern = cl "^\\s*" ++ cl "test" ++ cl "\\s*$" := by
      decide
    have hparse : parseToks (cl "^\\s*" ++ cl "test" ++ cl "\\s*$") =
        some [Tok.caret, Tok.wsStar, Tok.lit 't', Tok.lit 'e', Tok.lit 's',
          Tok.lit 't', Tok.wsStar, Tok.dollar] := by decide
    obtain ⟨body, hb⟩ := h.2.1 (cl "test") _ hparse
    exact ⟨body, by rw [hp, hparse, hb]⟩
  · exact h.2.2.1 (Tok.wsStar ::
      [Tok.lit 't', Tok.lit 'e', Tok.lit 's', Tok.lit 't'] ++
      [Tok.wsStar, Tok.dollar]) (cl " test  ") [] (by decide) (by decide)
  · exact h.2.2.2 [Tok.lit 't', Tok.lit 'e', Tok.lit 's', Tok.lit 't']
      (cl " test  ") [] (by decide)

end NLC
